import Mathlib

/-!
The Application schema of `apis/project.cattle.io/v3/application_types.go`.

The Go file declares constants and struct types with `json` struct tags; it has
no functions.  What the schema does is what Go's `reflect.StructTag` and
`encoding/json` derive from the declarations.  This development

* transcribes every declaration of the file as data (`GoType`, `StructField`),
  keeping the raw tag text of each field;
* models the tag lookup of `reflect.StructTag.Lookup`, the field resolution of
  `encoding/json` (`typeFields`: roles, embedding, dominance, case folding), and
  `Marshal` / `Unmarshal` at the level of JSON values;
* proves the properties of the schema over that model.

Modelling conventions.  Go strings are Unicode text (`String`), so byte
sequences that are not valid UTF-8 are not represented.  A JSON document is its
value tree (`Json`), numbers being integer literals; the text layer (escaping,
white space) is not modelled.  Go `int` is 64 bits wide.  A Go map is kept as an
association list with strictly increasing keys, which is the order in which
`Marshal` writes it.  A decoding error is `none`; the partial result Go leaves
behind on an error is not modelled.  An array is decoded as documented for
`Unmarshal`: the slice is reset and every element is decoded into a fresh zero
value.  The three types that `Application` embeds from other packages are
parameters (`External`).
-/

namespace V3

/-! ## Go types and values -/

mutual
/-- The Go types that occur in the file. -/
inductive GoType where
  | string
  | bool
  | int (bits : Nat)
  | uint (bits : Nat)
  | slice (elem : GoType)
  | map (elem : GoType)
  | ptr (elem : GoType)
  | struct (fields : List StructField)
/-- One field of a struct declaration: Go name, type, raw tag text, and whether
the field is embedded (anonymous). -/
inductive StructField where
  | mk (name : String) (type : GoType) (tag : String) (embedded : Bool)
end

/-- Go values.  `nil` is the nil pointer, slice or map; a struct value lists the
values of its declared fields in declaration order. -/
inductive GoVal where
  | str (s : String)
  | bool (b : Bool)
  | int (i : Int)
  | nil
  | slice (xs : List GoVal)
  | map (m : List (String × GoVal))
  | ptr (p : GoVal)
  | struct (fs : List GoVal)

/-- JSON value trees. -/
inductive Json where
  | null
  | bool (b : Bool)
  | num (n : Int)
  | str (s : String)
  | arr (xs : List Json)
  | obj (kvs : List (String × Json))

instance : Inhabited GoVal := ⟨GoVal.nil⟩
instance : Inhabited Json := ⟨Json.null⟩

/-! ## Boolean equality of values and JSON trees -/

mutual
/-- Boolean equality of Go values. -/
def GoVal.beq : GoVal → GoVal → Bool
  | .str a, .str b => a == b
  | .bool a, .bool b => a == b
  | .int a, .int b => a == b
  | .nil, .nil => true
  | .slice a, .slice b => GoVal.beqList a b
  | .map a, .map b => GoVal.beqEntries a b
  | .ptr a, .ptr b => GoVal.beq a b
  | .struct a, .struct b => GoVal.beqList a b
  | _, _ => false
/-- Boolean equality of lists of Go values. -/
def GoVal.beqList : List GoVal → List GoVal → Bool
  | [], [] => true
  | a :: as, b :: bs => GoVal.beq a b && GoVal.beqList as bs
  | _, _ => false
/-- Boolean equality of map entries. -/
def GoVal.beqEntries : List (String × GoVal) → List (String × GoVal) → Bool
  | [], [] => true
  | (k, a) :: as, (l, b) :: bs => k == l && GoVal.beq a b && GoVal.beqEntries as bs
  | _, _ => false
end

mutual
/-- Boolean equality of JSON trees. -/
def Json.beq : Json → Json → Bool
  | .null, .null => true
  | .bool a, .bool b => a == b
  | .num a, .num b => a == b
  | .str a, .str b => a == b
  | .arr a, .arr b => Json.beqList a b
  | .obj a, .obj b => Json.beqMembers a b
  | _, _ => false
/-- Boolean equality of lists of JSON trees. -/
def Json.beqList : List Json → List Json → Bool
  | [], [] => true
  | a :: as, b :: bs => Json.beq a b && Json.beqList as bs
  | _, _ => false
/-- Boolean equality of object members. -/
def Json.beqMembers : List (String × Json) → List (String × Json) → Bool
  | [], [] => true
  | (k, a) :: as, (l, b) :: bs => k == l && Json.beq a b && Json.beqMembers as bs
  | _, _ => false
end

/-! ## `reflect.StructTag.Lookup` -/

/-- The double quote character. -/
def dquote : Char := Char.ofNat 34

/-- The backslash character. -/
def bslash : Char := Char.ofNat 92

/-- Skips the leading spaces of a tag (`for i < len(tag) && tag[i] == ' '`). -/
def skipSpaces : List Char → List Char
  | [] => []
  | c :: r => if c = ' ' then skipSpaces r else c :: r

/-- A character of a tag key: above space, not a colon, not a quote, not DEL. -/
def isTagKeyChar (c : Char) : Bool :=
  decide (32 < c.toNat) && c != ':' && c != dquote && c.toNat != 127

/-- Scans a quoted tag value after its opening quote: returns the text before
the closing quote and what follows it; a backslash skips the next character. -/
def scanQuoted : List Char → Option (List Char × List Char)
  | [] => none
  | c :: r =>
    if c = dquote then some ([], r)
    else if c = bslash then
      match r with
      | [] => none
      | e :: r2 => (scanQuoted r2).map fun p => (c :: e :: p.1, p.2)
    else (scanQuoted r).map fun p => (c :: p.1, p.2)

/-- Go's `strconv.Unquote` on a double-quoted tag value without escape sequences.
A value with a backslash or a newline is reported as unquotable; no tag of this
file has one, and `supported` excludes them. -/
def unquote (q : List Char) : Option (List Char) :=
  if q.any (fun c => c == bslash || c == Char.ofNat 10) then none else some q

/-- The loop of `reflect.StructTag.Lookup`: conventional tags are a sequence of
`key:"value"` pairs separated by spaces; the scan stops at the first piece that
is not of that form. -/
def tagLookup (key : List Char) : Nat → List Char → Option (List Char)
  | 0, _ => none
  | fuel + 1, tag =>
    let t := skipSpaces tag
    let name := t.takeWhile isTagKeyChar
    match t.dropWhile isTagKeyChar with
    | c1 :: c2 :: rest =>
      if name = [] ∨ c1 ≠ ':' ∨ c2 ≠ dquote then none
      else
        match scanQuoted rest with
        | none => none
        | some (q, rest2) =>
          if name = key then unquote q else tagLookup key fuel rest2
    | _ => none

/-- Go's `reflect.StructTag.Get`: the value of `key` in the tag, or the empty string.
Every round of the lookup consumes at least one character, so the length of the
tag is enough fuel. -/
def tagGet (tag key : String) : String :=
  match tagLookup key.data (tag.data.length + 1) tag.data with
  | some v => String.mk v
  | none => ""

/-! ## `encoding/json`: tag options and field roles -/

/-- Go's `strings.Split(s, ",")`. -/
def splitComma : List Char → List (List Char)
  | [] => [[]]
  | c :: r =>
    match splitComma r with
    | seg :: segs => if c = ',' then [] :: seg :: segs else (c :: seg) :: segs
    | [] => [[c]]

/-- The `parseTag` of `encoding/json`: the name before the first comma and the options after it. -/
def parseTag (tv : List Char) : List Char × List (List Char) :=
  match splitComma tv with
  | name :: opts => (name, opts)
  | [] => ([], [])

/-- The punctuation `isValidTag` accepts in a name. -/
def tagPunct : List Char := "!#$%&()*+-./:;<=>?@[]^_\x7b|\x7d~ ".data

/-- The `isValidTag` of `encoding/json`: a non-empty name of letters, digits and accepted punctuation. -/
def isValidTag (n : List Char) : Bool :=
  n != [] && n.all fun c => tagPunct.contains c || c.isAlpha || c.isDigit

/-- What `typeFields` does with a field of a struct. -/
inductive Role where
  | skip
  | inline
  | leaf (key : String) (omitEmpty tagged quoted : Bool)
deriving DecidableEq, Repr

/-- Go's `reflect.StructField.IsExported`. -/
def isExported (name : String) : Bool :=
  match name.data with
  | c :: _ => c.isUpper
  | [] => false

/-- Whether a type is a struct type. -/
def GoType.isStruct : GoType → Bool
  | .struct _ => true
  | _ => false

/-- The per-field part of `typeFields`: unexported fields and fields tagged `-`
are skipped; an embedded struct without a valid tag name is inlined; every
other field is recorded under its tag name, or its Go name when the tag gives
none, with the `omitempty` and `string` options. -/
def role : StructField → Role
  | .mk name ty tag emb =>
    if !isExported name && !(emb && ty.isStruct) then .skip
    else
      let tv := tagGet tag "json"
      if tv = "-" then .skip
      else
        let p := parseTag tv.data
        let n := if isValidTag p.1 then p.1 else []
        if n != [] || !emb || !ty.isStruct then
          .leaf (if n = [] then name else String.mk n)
            (p.2.contains "omitempty".data) (n != []) (p.2.contains "string".data)
        else .inline

/-- A field as `encoding/json` sees it: JSON key, `omitempty`, type, embedding
depth, and whether the key came from the tag. -/
structure Leaf where
  key : String
  omitEmpty : Bool
  ty : GoType
  depth : Nat
  tagged : Bool

mutual
/-- The candidate fields an inlined embedded type contributes. -/
def flattenType (d : Nat) : GoType → List Leaf
  | .struct fs => flatten d fs
  | _ => []
/-- The candidate fields one declared field contributes. -/
def flattenField (d : Nat) : StructField → List Leaf
  | .mk name ty tag emb =>
    match role (.mk name ty tag emb) with
    | .skip => []
    | .leaf k o t _ => [⟨k, o, ty, d, t⟩]
    | .inline => flattenType (d + 1) ty
/-- All candidate fields of a struct in declaration order, the fields of
inlined embedded structs in place of the embedded field. -/
def flatten (d : Nat) : List StructField → List Leaf
  | [] => []
  | f :: r => flattenField d f ++ flatten d r
end

/-- Go's dominance between two candidates of the same name: the shallower one
wins, and at equal depth the one whose name came from a tag. -/
def dominates (a b : Leaf) : Bool :=
  decide (a.depth < b.depth) || (a.depth == b.depth && a.tagged && !b.tagged)

/-- Candidate `i` survives `typeFields` when it dominates every other candidate
of the same name; candidates that tie are all dropped. -/
def active (ls : List Leaf) (i : Nat) : Bool :=
  match ls[i]? with
  | none => false
  | some a => ls.enum.all fun jb => jb.1 == i || jb.2.key != a.key || dominates a jb.2

/-- The fields `encoding/json` uses for a struct: the surviving candidates with
their positions among all candidates. -/
def typeFields (fs : List StructField) : List (Nat × Leaf) :=
  (flatten 0 fs).enum.filter fun il => active (flatten 0 fs) il.1

/-- The JSON keys of a struct, in the order `Marshal` writes them. -/
def jsonKeys : GoType → List String
  | .struct fs => (typeFields fs).map fun il => il.2.key
  | _ => []

/-- Case folding of one character of a key (`foldName`): ASCII letters fold to
upper case, and the two non-ASCII characters whose fold orbit meets ASCII
(U+017F and U+212A) fold to `S` and `K`.  Other characters are left alone,
which agrees with Go whenever one of the compared keys is ASCII. -/
def foldChar (c : Char) : Char :=
  if c.isLower then c.toUpper
  else if c.toNat = 0x17F then 'S'
  else if c.toNat = 0x212A then 'K'
  else c

/-- The folded form of a key, under which `Unmarshal` matches keys when no
field has the exact key. -/
def foldName (k : String) : String := String.mk (k.data.map foldChar)

/-! ## Values: zero values, typing, emptiness -/

mutual
/-- The zero value of a type. -/
def zero : GoType → GoVal
  | .string => .str ""
  | .bool => .bool false
  | .int _ => .int 0
  | .uint _ => .int 0
  | .slice _ => .nil
  | .map _ => .nil
  | .ptr _ => .nil
  | .struct fs => .struct (zeroFields fs)
/-- The zero value of one field. -/
def zeroField : StructField → GoVal
  | .mk _ ty _ _ => zero ty
/-- The zero values of the fields of a struct. -/
def zeroFields : List StructField → List GoVal
  | [] => []
  | f :: r => zeroField f :: zeroFields r
end

/-- The values of the fields of a struct value. -/
def GoVal.fields : GoVal → List GoVal
  | .struct vs => vs
  | _ => []

/-- Byte-wise order of two strings, the order in which `Marshal` sorts map keys. -/
def charsLt : List Char → List Char → Bool
  | [], [] => false
  | [], _ :: _ => true
  | _ :: _, [] => false
  | a :: as, b :: bs => decide (a.toNat < b.toNat) || (a.toNat == b.toNat && charsLt as bs)

/-- Strict order on map keys. -/
def keyLt (a b : String) : Bool := charsLt a.data b.data

/-- Keys in strictly increasing order: every key is below all later ones. -/
def sortedKeys : List String → Bool
  | [] => true
  | a :: r => r.all (fun b => keyLt a b) && sortedKeys r

/-- Range of a signed integer type of the given width. -/
def inInt (bits : Nat) (i : Int) : Bool :=
  decide (-((2 ^ (bits - 1) : Nat) : Int) ≤ i) && decide (i < ((2 ^ (bits - 1) : Nat) : Int))

/-- Range of an unsigned integer type of the given width. -/
def inUint (bits : Nat) (i : Int) : Bool :=
  decide (0 ≤ i) && decide (i < ((2 ^ bits : Nat) : Int))

mutual
/-- Whether a value is a value of the type. -/
def hasType : GoType → GoVal → Bool
  | .string, .str _ => true
  | .bool, .bool _ => true
  | .int n, .int i => inInt n i
  | .uint n, .int i => inUint n i
  | .slice _, .nil => true
  | .slice t, .slice xs => xs.all fun x => hasType t x
  | .map _, .nil => true
  | .map t, .map m => sortedKeys (m.map fun kv => kv.1) && m.all fun kv => hasType t kv.2
  | .ptr _, .nil => true
  | .ptr t, .ptr p => hasType t p
  | .struct fs, .struct vs => hasTypeFields fs vs
  | _, _ => false
/-- Whether a value is a value of the field's type. -/
def hasTypeField : StructField → GoVal → Bool
  | .mk _ ty _ _, v => hasType ty v
/-- Whether a list of values matches the fields of a struct, one by one. -/
def hasTypeFields : List StructField → List GoVal → Bool
  | [], [] => true
  | f :: r, v :: vs => hasTypeField f v && hasTypeFields r vs
  | _, _ => false
end

/-- The `isEmptyValue` of `encoding/json`: false, 0, a nil pointer, and any array,
slice, map or string of length zero.  A struct is never empty. -/
def isEmptyValue : GoVal → Bool
  | .str s => s.data.isEmpty
  | .bool b => !b
  | .int i => i == 0
  | .nil => true
  | .slice xs => xs.isEmpty
  | .map m => m.isEmpty
  | .ptr _ => false
  | .struct _ => false

/-! ## `Marshal` -/

/-- The object members written for the candidate slots of a struct: the slot of
a candidate that `typeFields` dropped, or that was omitted, writes nothing. -/
def collect (ls : List Leaf) (slots : List (Option (String × Json))) : List (String × Json) :=
  slots.enum.filterMap fun p => if active ls p.1 then p.2 else none

mutual
/-- Go's `json.Marshal` on a value of the given type, as a JSON value tree. -/
def marshal : GoType → GoVal → Json
  | .string, .str s => .str s
  | .bool, .bool b => .bool b
  | .int _, .int i => .num i
  | .uint _, .int i => .num i
  | .slice t, .slice xs => .arr (xs.map fun x => marshal t x)
  | .map t, .map m => .obj (m.map fun kv => (kv.1, marshal t kv.2))
  | .ptr t, .ptr p => marshal t p
  | .struct fs, v => .obj (collect (flatten 0 fs) (marshalFields fs v.fields))
  | _, _ => .null
/-- The slots of the candidates of an inlined embedded struct. -/
def marshalInline : GoType → GoVal → List (Option (String × Json))
  | .struct fs, v => marshalFields fs v.fields
  | _, _ => []
/-- The slots one declared field contributes: a recorded field is omitted when
it is `omitempty` and its value is empty. -/
def marshalField : StructField → GoVal → List (Option (String × Json))
  | .mk name ty tag emb, v =>
    match role (.mk name ty tag emb) with
    | .skip => []
    | .leaf k o _ _ => [if o && isEmptyValue v then none else some (k, marshal ty v)]
    | .inline => marshalInline ty v
/-- The slots of all candidates of a struct, aligned with `flatten`. -/
def marshalFields : List StructField → List GoVal → List (Option (String × Json))
  | [], _ => []
  | f :: r, vs => marshalField f (vs.headD .nil) ++ marshalFields r vs.tail
end

/-! ## `Unmarshal` -/

/-- Storing a key in a map: an existing key gets the new value, a new key is
put at its place in key order. -/
def mapInsert (k : String) (v : GoVal) : List (String × GoVal) → List (String × GoVal)
  | [] => [(k, v)]
  | (k2, v2) :: r =>
    if k = k2 then (k, v) :: r
    else if keyLt k k2 then (k, v) :: (k2, v2) :: r
    else (k2, v2) :: mapInsert k v r

/-- Map lookup. -/
def mapLookup (k : String) : List (String × GoVal) → Option GoVal
  | [] => none
  | (k2, v2) :: r => if k = k2 then some v2 else mapLookup k r

/-- The field an object key is decoded into: the field with exactly that key,
or else the first field whose key matches it under case folding.  The result is
the field's position among the candidates. -/
def findField (fs : List StructField) (k : String) : Option Nat :=
  match (typeFields fs).find? fun il => il.2.key == k with
  | some il => some il.1
  | none => ((typeFields fs).find? fun il => foldName il.2.key == foldName k).map fun il => il.1

/-- The results of decoding the elements of an array: all of them, or an error
when one element fails. -/
def allOrNone : List (Option GoVal) → Option (List GoVal)
  | [] => some []
  | none :: _ => none
  | some a :: r => (allOrNone r).map fun as => a :: as

/-- The value a pointer points to, or the freshly allocated value for nil. -/
def GoVal.pointee : GoVal → GoVal → GoVal
  | .ptr p, _ => p
  | _, fresh => fresh

/-- The entries of a map value, none for a nil map. -/
def GoVal.entries : GoVal → List (String × GoVal)
  | .map m => m
  | _ => []

mutual
/-- Go's `json.Unmarshal` of a JSON value into a variable of the given type that
currently holds `cur`.  `null` sets a pointer, slice or map to nil and leaves
any other variable alone; an array replaces a slice, each element decoded into
a fresh zero value; an object stores its members into a map, keeping the other
entries, or into the fields of a struct, keeping the other fields; a pointer is
allocated when nil.  A JSON value of the wrong kind, or a number out of range,
is an error (`none`). -/
def unmarshalInto : GoType → GoVal → Json → Option GoVal
  | .ptr _, _, .null => some .nil
  | .slice _, _, .null => some .nil
  | .map _, _, .null => some .nil
  | _, cur, .null => some cur
  | .string, _, .str s => some (.str s)
  | .bool, _, .bool b => some (.bool b)
  | .int n, _, .num i => if inInt n i then some (.int i) else none
  | .uint n, _, .num i => if inUint n i then some (.int i) else none
  | .ptr t, cur, j => (unmarshalInto t (cur.pointee (zero t)) j).map GoVal.ptr
  | .slice t, _, .arr xs =>
    (allOrNone (xs.map fun x => unmarshalInto t (zero t) x)).map GoVal.slice
  | .map t, cur, .obj kvs =>
    (kvs.foldlM (fun m (kv : String × Json) =>
        (unmarshalInto t (zero t) kv.2).map fun v => mapInsert kv.1 v m)
      cur.entries).map GoVal.map
  | .struct fs, cur, .obj kvs =>
    (kvs.foldlM (fun vs (kv : String × Json) =>
        match findField fs kv.1 with
        | none => some vs
        | some i => unmarshalFields fs i vs kv.2)
      cur.fields).map GoVal.struct
  | _, _, _ => none
/-- Decoding into candidate `i` of an inlined embedded struct. -/
def unmarshalInline : GoType → Nat → GoVal → Json → Option GoVal
  | .struct fs, i, v, j => (unmarshalFields fs i v.fields j).map GoVal.struct
  | _, _, v, _ => some v
/-- Decoding into candidate `i` of one declared field. -/
def unmarshalField : StructField → Nat → GoVal → Json → Option GoVal
  | .mk name ty tag emb, i, v, j =>
    match role (.mk name ty tag emb) with
    | .skip => some v
    | .leaf _ _ _ _ => unmarshalInto ty v j
    | .inline => unmarshalInline ty i v j
/-- Decoding into candidate `i` of a struct whose field values are `vs`: the
declared field that holds the candidate is found by counting candidates. -/
def unmarshalFields : List StructField → Nat → List GoVal → Json → Option (List GoVal)
  | [], _, vs, _ => some vs
  | f :: r, i, vs, j =>
    if i < (flattenField 0 f).length then
      (unmarshalField f i (vs.headD .nil) j).map fun v => v :: vs.tail
    else
      (unmarshalFields r (i - (flattenField 0 f).length) vs.tail j).map fun t => vs.headD .nil :: t
end

/-- Go's `json.Unmarshal` into a fresh variable of the type. -/
def unmarshal (t : GoType) (j : Json) : Option GoVal := unmarshalInto t (zero t) j

/-! ## The declarations of `application_types.go` -/

/-- Constant `PullAlways`. -/
def PullAlways : String := "Always"
/-- Constant `PullNever`. -/
def PullNever : String := "Never"
/-- Constant `PullIfNotPresent`. -/
def PullIfNotPresent : String := "IfNotPresent"

/-- Constant `Server`. -/
def Server : String := "Server"
/-- Constant `SingletonServer`. -/
def SingletonServer : String := "SingletonServer"
/-- Constant `Worker`. -/
def Worker : String := "Worker"
/-- Constant `SingletonWorker`. -/
def SingletonWorker : String := "SingletonWorker"
/-- Constant `Task`. -/
def Task : String := "Task"
/-- Constant `SingletonTask`. -/
def SingletonTask : String := "SingletonTaskTask"

/-- Constant `SimpleLBRoundRobin`. -/
def SimpleLBRoundRobin : String := "ROUND_ROBIN"
/-- Constant `SimpleLBLeastConn`. -/
def SimpleLBLeastConn : String := "LEAST_CONN"
/-- Constant `SimpleLBRandom`. -/
def SimpleLBRandom : String := "RANDOM"
/-- Constant `SimpleLBPassthrough`. -/
def SimpleLBPassthrough : String := "PASSTHROUGH"

/-- The constants of type `PullPolicy`, in declaration order. -/
def pullPolicies : List String := [PullAlways, PullNever, PullIfNotPresent]

/-- The constants of type `WorkloadType`, in declaration order. -/
def workloadTypes : List String :=
  [Server, SingletonServer, Worker, SingletonWorker, Task, SingletonTask]

/-- The constants of type `SimpleLB`, in declaration order. -/
def simpleLBs : List String :=
  [SimpleLBRoundRobin, SimpleLBLeastConn, SimpleLBRandom, SimpleLBPassthrough]

/-- Type `PullPolicy`, a string. -/
def PullPolicy : GoType := .string
/-- Type `WorkloadType`, a string. -/
def WorkloadType : GoType := .string
/-- Type `SimpleLB`, a string. -/
def SimpleLB : GoType := .string

/-- The three types `Application` embeds from other packages (`types.Namespaced`
of norman, `metav1.TypeMeta` and `metav1.ObjectMeta` of apimachinery).  Their
declarations are not part of this file; they are parameters. -/
structure External where
  Namespaced : GoType
  TypeMeta : GoType
  ObjectMeta : GoType

/-- Struct `Parameter`. -/
def Parameter : GoType := .struct [
  .mk "Name" .string "json:\"name\"" false,
  .mk "Description" .string "json:\"description,omitempty\"" false,
  .mk "Type" .string "json:\"type\"" false,
  .mk "Required" .bool "json:\"required,omitempty\"" false,
  .mk "Default" .string "json:\"default,omitempty\"" false]

/-- Struct `AppPort`. -/
def AppPort : GoType := .struct [
  .mk "Name" .string "json:\"name,omitempty\"" false,
  .mk "ContainerPort" (.int 32) "json:\"containerPort\"" false,
  .mk "Protocol" .string "json:\"protocol,omitempty\"" false]

/-- Struct `CEnvVar`. -/
def CEnvVar : GoType := .struct [
  .mk "Name" .string "json:\"name\"" false,
  .mk "Value" .string "json:\"value\"" false,
  .mk "FromParam" .string "json:\"fromParam,omitempty\"" false]

/-- Struct `Disk`. -/
def Disk : GoType := .struct [
  .mk "Required" .string "json:\"required,omitempty\"" false,
  .mk "Ephemeral" .bool "json:\"ephemeral\"" false]

/-- Struct `CVolume`. -/
def CVolume : GoType := .struct [
  .mk "Name" .string "json:\"name\"" false,
  .mk "MountPath" .string "json:\"mountPath\"" false,
  .mk "AccessMode" .string "json:\"accessMode,omitempty\"" false,
  .mk "SharingPolicy" .string "json:\"sharingPolicy,omitempty\"" false,
  .mk "Disk" Disk "json:\"disk\"" false]

/-- Struct `CResource`. -/
def CResource : GoType := .struct [
  .mk "Cpu" .string "json:\"cpu,omitempty\"" false,
  .mk "Memory" .string "json:\"memory,omitempty\"" false,
  .mk "Gpu" (.int 64) "json:\"gpu,omitempty\"" false,
  .mk "Volumes" (.slice CVolume) "json:\"volumes,omitempty\"" false]

/-- Struct `ExecAction`. -/
def ExecAction : GoType := .struct [
  .mk "Command" (.slice .string) "json:\"command,omitempty\" protobuf:\"bytes,1,rep,name=command\"" false]

/-- Struct `HTTPHeader`. -/
def HTTPHeader : GoType := .struct [
  .mk "Name" .string "json:\"name\" protobuf:\"bytes,1,opt,name=name\"" false,
  .mk "Value" .string "json:\"value\" protobuf:\"bytes,2,opt,name=value\"" false]

/-- Struct `HTTPGetAction`. -/
def HTTPGetAction : GoType := .struct [
  .mk "Path" .string "json:\"path,omitempty\" protobuf:\"bytes,1,opt,name=path\"" false,
  .mk "Port" (.int 64) "json:\"port\" protobuf:\"bytes,2,opt,name=port\"" false,
  .mk "HTTPHeaders" (.slice HTTPHeader) "json:\"httpHeaders,omitempty\" protobuf:\"bytes,5,rep,name=httpHeaders\"" false]

/-- Struct `TCPSocketAction`. -/
def TCPSocketAction : GoType := .struct [
  .mk "Port" (.int 64) "json:\"port\" protobuf:\"bytes,1,opt,name=port\"" false]

/-- Struct `Handler`. -/
def Handler : GoType := .struct [
  .mk "Exec" ExecAction "json:\"exec,omitempty\" protobuf:\"bytes,1,opt,name=exec\"" false,
  .mk "HTTPGet" HTTPGetAction "json:\"httpGet,omitempty\" protobuf:\"bytes,2,opt,name=httpGet\"" false,
  .mk "TCPSocket" TCPSocketAction "json:\"tcpSocket,omitempty\" protobuf:\"bytes,3,opt,name=tcpSocket\"" false]

/-- Struct `HealthProbe`. -/
def HealthProbe : GoType := .struct [
  .mk "Handler" Handler "json:haneler\",inline\" protobuf:\"bytes,1,opt,name=handler\"" true,
  .mk "InitialDelaySeconds" (.int 32) "json:\"initialDelaySeconds,omitempty\" protobuf:\"varint,2,opt,name=initialDelaySeconds\"" false,
  .mk "TimeoutSeconds" (.int 32) "json:\"timeoutSeconds,omitempty\" protobuf:\"varint,3,opt,name=timeoutSeconds\"" false,
  .mk "PeriodSeconds" (.int 32) "json:\"periodSeconds,omitempty\" protobuf:\"varint,4,opt,name=periodSeconds\"" false,
  .mk "SuccessThreshold" (.int 32) "json:\"successThreshold,omitempty\" protobuf:\"varint,5,opt,name=successThreshold\"" false,
  .mk "FailureThreshold" (.int 32) "json:\"failureThreshold,omitempty\" protobuf:\"varint,6,opt,name=failureThreshold\"" false]

/-- Struct `CLifecycle`. -/
def CLifecycle : GoType := .struct [
  .mk "PostStart" (.ptr Handler) "json:\"postStart,omitempty\" protobuf:\"bytes,1,opt,name=postStart\"" false,
  .mk "PreStop" (.ptr Handler) "json:\"preStop,omitempty\" protobuf:\"bytes,2,opt,name=preStop\"" false]

/-- Struct `ConfigFile`. -/
def ConfigFile : GoType := .struct [
  .mk "Path" .string "json:\"path\"" false,
  .mk "FileName" .string "json:\"fileName\"" false,
  .mk "Value" .string "json:\"value\"" false,
  .mk "FromParam" .string "json:\"fromParam,omitempty\"" false]

/-- Struct `SecurityContext`. -/
def SecurityContext : GoType := .struct []

/-- Struct `ComponentContainer`. -/
def ComponentContainer : GoType := .struct [
  .mk "Name" .string "json:\"name\"" false,
  .mk "Image" .string "json:\"image\"" false,
  .mk "Command" (.slice .string) "json:\"command,omitempty\"" false,
  .mk "Args" (.slice .string) "json:\"args,omitempty\"" false,
  .mk "Ports" (.slice AppPort) "json:\"ports,omitempty\"" false,
  .mk "Env" (.slice CEnvVar) "json:\"env,omitempty\"" false,
  .mk "Resources" CResource "json:\"resources,omitempty\"" false,
  .mk "LivenessProbe" HealthProbe "json:\"livenessProbe,omitempty\"" false,
  .mk "ReadinessProbe" HealthProbe "json:\"readinessProbe,omitempty\"" false,
  .mk "ImagePullPolicy" PullPolicy "json:\"imagePullPolicy,omitempty\"" false,
  .mk "Lifecycle" CLifecycle "json:\"lifecycle,omitempty\"" false,
  .mk "Config" (.slice ConfigFile) "json:\"config,omitempty\"" false,
  .mk "ImagePullSecret" .string "json:\"imagePullSecret,omitempty\"" false,
  .mk "SecurityContext" (.ptr SecurityContext) "json:\"securityContext,omitempty\"" false]

/-- Struct `WorkloadSetting`. -/
def WorkloadSetting : GoType := .struct [
  .mk "Name" .string "json:\"name\"" false,
  .mk "Type" .string "json:\"type\"" false,
  .mk "Value" .string "json:\"value\"" false,
  .mk "FromParam" .string "json:\"fromParam\"" false]

/-- Struct `ImagePullConfig`. -/
def ImagePullConfig : GoType := .struct [
  .mk "Registry" .string "json:\"registry,omitempty\"" false,
  .mk "Username" .string "json:\"username,omitempty\"" false,
  .mk "Password" .string "json:\"password,omitempty\"" false]

/-- Struct `IngressLB`. -/
def IngressLB : GoType := .struct [
  .mk "LBType" .string "json:\"lbType,omitempty\"" false,
  .mk "ConsistentType" .string "json:\"consistentType,omitempty\"" false]

/-- Struct `ComponentTraitsForDev`. -/
def ComponentTraitsForDev : GoType := .struct [
  .mk "ImagePullConfig" ImagePullConfig "json:\"imagePullConfig\"" false,
  .mk "StaticIP" .bool "json:\"staticIP,omitempty\"" false,
  .mk "IngressLB" IngressLB "json:\"ingressLB,omitempty\"" false]

/-- Struct `ManualScaler`. -/
def ManualScaler : GoType := .struct [
  .mk "Replicas" (.int 32) "json:\"replicas\"" false]

/-- Struct `VolumeMounter`. -/
def VolumeMounter : GoType := .struct [
  .mk "VolumeName" .string "json:\"volumeName\"" false,
  .mk "StorageClass" .string "json:\"storageClass\"" false]

/-- Struct `AppIngress`. -/
def AppIngress : GoType := .struct [
  .mk "Host" .string "json:\"host\"" false,
  .mk "Path" .string "json:\"path,omitempty\"" false,
  .mk "ServerPort" (.int 32) "json:\"serverPort\"" false]

/-- Struct `WhiteList`. -/
def WhiteList : GoType := .struct [
  .mk "Users" (.slice .string) "json:\"users,omitempty\"" false]

/-- Struct `Fusing`. -/
def Fusing : GoType := .struct [
  .mk "PodList" (.slice .string) "json:\"podlist,omitempty\"" false,
  .mk "Action" .string "json:\"action,omitempty\"" false]

/-- Struct `Override`. -/
def Override : GoType := .struct [
  .mk "RequestAmount" (.int 32) "json:\"requestAmount\"" false,
  .mk "User" .string "json:\"user\"" false]

/-- Struct `RateLimit`. -/
def RateLimit : GoType := .struct [
  .mk "TimeDuration" .string "json:\"timeDuration\"" false,
  .mk "RequestAmount" (.int 32) "json:\"requestAmount\"" false,
  .mk "Overrides" (.slice Override) "json:\"overrides,omitempty\"" false]

/-- Struct `ConsistentHashLB`. -/
def ConsistentHashLB : GoType := .struct [
  .mk "HTTPHeaderName" .string "json:\"httpHeaderName,omitempty\"" false,
  .mk "UseSourceIP" .bool "json:\"useSourceIp,omitempty\"" false,
  .mk "MinimumRingSize" (.uint 64) "json:\"minimumRingSize,omitempty\"" false]

/-- Struct `LoadBalancerSettings`. -/
def LoadBalancerSettings : GoType := .struct [
  .mk "Simple" SimpleLB "json:\"simple,omitempty\"" false,
  .mk "ConsistentHash" ConsistentHashLB "json:\"consistentHash,omitempty\"" false]

/-- Struct `TCPSettings`. -/
def TCPSettings : GoType := .struct [
  .mk "MaxConnections" (.int 32) "json:\"maxConnections,omitempty\"" false,
  .mk "ConnectTimeout" .string "json:\"connectTimeout,omitempty\"" false]

/-- Struct `HTTPSettings`. -/
def HTTPSettings : GoType := .struct [
  .mk "HTTP1MaxPendingRequests" (.int 32) "json:\"http1MaxPendingRequests,omitempty\"" false,
  .mk "HTTP2MaxRequests" (.int 32) "json:\"http2MaxRequests,omitempty\"" false,
  .mk "MaxRequestsPerConnection" (.int 32) "json:\"maxRequestsPerConnection,omitempty\"" false,
  .mk "MaxRetries" (.int 32) "json:\"maxRetries,omitempty\"" false]

/-- Struct `ConnectionPoolSettings`. -/
def ConnectionPoolSettings : GoType := .struct [
  .mk "TCP" TCPSettings "json:\"tcp,omitempty\"" false,
  .mk "HTTP" HTTPSettings "json:\"http,omitempty\"" false]

/-- Struct `OutlierDetection`. -/
def OutlierDetection : GoType := .struct [
  .mk "ConsecutiveErrors" (.int 32) "json:\"consecutiveErrors,omitempty\"" false,
  .mk "Interval" .string "json:\"interval,omitempty\"" false,
  .mk "BaseEjectionTime" .string "json:\"baseEjectionTime,omitempty\"" false,
  .mk "MaxEjectionPercent" (.int 32) "json:\"maxEjectionPercent,omitempty\"" false]

/-- Struct `PortSelector`. -/
def PortSelector : GoType := .struct [
  .mk "Number" (.uint 32) "json:\"number,omitempty\"" false,
  .mk "Name" .string "json:\"name,omitempty\"" false]

/-- Struct `PortTrafficPolicy`. -/
def PortTrafficPolicy : GoType := .struct [
  .mk "Port" PortSelector "json:\"port\"" false,
  .mk "LoadBalancer" LoadBalancerSettings "json:\"loadBalancer,omitempty\"" false,
  .mk "ConnectionPool" ConnectionPoolSettings "json:\"connectionPool,omitempty\"" false,
  .mk "OutlierDetection" OutlierDetection "json:\"outlierDetection,omitempty\"" false]

/-- Struct `CircuitBreaking`. -/
def CircuitBreaking : GoType := .struct [
  .mk "LoadBalancer" LoadBalancerSettings "json:\"loadBalancer,omitempty\"" false,
  .mk "ConnectionPool" ConnectionPoolSettings "json:\"connectionPool,omitempty\"" false,
  .mk "OutlierDetection" OutlierDetection "json:\"outlierDetection,omitempty\"" false,
  .mk "PortLevelSettings" (.slice PortTrafficPolicy) "json:\"portLevelSettings,omitempty\"" false]

/-- Struct `HttpRetry`. -/
def HttpRetry : GoType := .struct [
  .mk "Attempts" (.int 64) "json:\"attempts\"" false,
  .mk "PerTryTimeout" .string "json:pertrytimeout" false]

/-- Struct `Autoscaling`. -/
def Autoscaling : GoType := .struct [
  .mk "Metric" .string "json:\"metric\"" false,
  .mk "Threshold" (.int 64) "json:\"threshold\"" false,
  .mk "MaxReplicas" (.int 32) "json:\"maxreplicas\"" false,
  .mk "MinReplicas" (.int 32) "json:\"minreplicas\"" false]

/-- Struct `CustomMetric`. -/
def CustomMetric : GoType := .struct [
  .mk "Enable" .bool "json: \"enable\"" false,
  .mk "Uri" .string "json:\"uri,omitempty\"" false]

/-- Struct `ComponentTraitsForOpt`. -/
def ComponentTraitsForOpt : GoType := .struct [
  .mk "ManualScaler" ManualScaler "json:\"manualScaler,omitempty\"" false,
  .mk "VolumeMounter" VolumeMounter "json:\"volumeMounter,omitempty\"" false,
  .mk "Ingress" AppIngress "json:\"ingress\"" false,
  .mk "WhiteList" WhiteList "json:\"whiteList,omitempty\"" false,
  .mk "Eject" (.slice .string) "json:\"eject,omitempty\"" false,
  .mk "Fusing" Fusing "json:\"fusing,omitempty\"" false,
  .mk "RateLimit" RateLimit "json:\"rateLimit,omitempty\"" false,
  .mk "CircuitBreaking" CircuitBreaking "json:\"circuitbreaking,omitempty\"" false,
  .mk "HttpRetry" HttpRetry "json:\"httpretry,omitempty\"" false,
  .mk "Autoscaling" Autoscaling "json:\"autoscaling,omitempty\"" false,
  .mk "CustomMetric" CustomMetric "json:\"custommetric,omitempty\"" false,
  .mk "TerminationGracePeriodSeconds" (.int 64) "json:\"terminationGracePeriodSeconds,omitempty\"" false]

/-- Struct `Component`. -/
def Component : GoType := .struct [
  .mk "Name" .string "json:\"name\"" false,
  .mk "Version" .string "json:\"version\"" false,
  .mk "Parameters" (.slice Parameter) "json:\"parameters,omitempty\"" false,
  .mk "WorkloadType" WorkloadType "json:\"workloadType\"" false,
  .mk "OsType" .string "json:\"osType,omitempty\"" false,
  .mk "Arch" .string "json:\"arch,omitempty\"" false,
  .mk "Containers" (.slice ComponentContainer) "json:\"containers,omitempty\"" false,
  .mk "WorkloadSettings" (.slice WorkloadSetting) "json:\"workloadSetings,omitempty\"" false,
  .mk "DevTraits" ComponentTraitsForDev "json:\"devTraits,omitempty\"" false,
  .mk "OptTraits" ComponentTraitsForOpt "json:\"optTraits,omitempty\"" false]

/-- Struct `ApplicationSpec`. -/
def ApplicationSpec : GoType := .struct [
  .mk "Components" (.slice Component) "json:\"components\"" false]

/-- Struct `ComponentResources`. -/
def ComponentResources : GoType := .struct [
  .mk "ComponentId" .string "json:\"componentId,omitempty\"" false,
  .mk "Workload" .string "json:\"workload,omitempty\"" false,
  .mk "Service" .string "json:\"service,omitempty\"" false,
  .mk "ConfigMaps" (.slice .string) "json:\"configMaps,omitempty\"" false,
  .mk "ImagePullSecret" .string "json:\"imagePullSecret,omitempty\"" false,
  .mk "Gateway" .string "json:\"gateway,omitempty\"" false,
  .mk "Policy" .string "json:\"policy,omitempty\"" false,
  .mk "ClusterRbacConfig" .string "json:\"clusterRbacConfig,omitempty\"" false,
  .mk "VirtualService" .string "json:\"virtualService,omitempty\"" false,
  .mk "ServiceRole" .string "json:\"serviceRole,omitempty\"" false,
  .mk "ServiceRoleBinding" .string "json:\"serviceRoleBinding,omitempty\"" false,
  .mk "DestinationRule" .string "json:\"DestinationRule,omitempty\"" false]

/-- Struct `ApplicationStatus`. -/
def ApplicationStatus : GoType := .struct [
  .mk "ComponentResource" (.map ComponentResources) "json:\"componentResource,omitempty\"" false]

/-- Struct `Application`. -/
def Application (x : External) : GoType := .struct [
  .mk "Namespaced" x.Namespaced "" true,
  .mk "TypeMeta" x.TypeMeta "json:\",inline\"" true,
  .mk "ObjectMeta" x.ObjectMeta "json:\"metadata,omitempty\"" true,
  .mk "Spec" ApplicationSpec "json:\"spec,omitempty\"" false,
  .mk "Status" ApplicationStatus "json:\"status,omitempty\"" false]

/-- Every struct type the file declares, by name. -/
def declaredStructs (x : External) : List (String × GoType) := [
  ("Application", Application x),
  ("ApplicationSpec", ApplicationSpec),
  ("WhiteList", WhiteList),
  ("AppIngress", AppIngress),
  ("VolumeMounter", VolumeMounter),
  ("ManualScaler", ManualScaler),
  ("ComponentTraitsForOpt", ComponentTraitsForOpt),
  ("CustomMetric", CustomMetric),
  ("Autoscaling", Autoscaling),
  ("HttpRetry", HttpRetry),
  ("CircuitBreaking", CircuitBreaking),
  ("ConnectionPoolSettings", ConnectionPoolSettings),
  ("PortSelector", PortSelector),
  ("OutlierDetection", OutlierDetection),
  ("TCPSettings", TCPSettings),
  ("HTTPSettings", HTTPSettings),
  ("Fusing", Fusing),
  ("RateLimit", RateLimit),
  ("Override", Override),
  ("PortTrafficPolicy", PortTrafficPolicy),
  ("LoadBalancerSettings", LoadBalancerSettings),
  ("ConsistentHashLB", ConsistentHashLB),
  ("IngressLB", IngressLB),
  ("ImagePullConfig", ImagePullConfig),
  ("ComponentTraitsForDev", ComponentTraitsForDev),
  ("Disk", Disk),
  ("CVolume", CVolume),
  ("CResource", CResource),
  ("CEnvVar", CEnvVar),
  ("AppPort", AppPort),
  ("ComponentContainer", ComponentContainer),
  ("CLifecycle", CLifecycle),
  ("Component", Component),
  ("Parameter", Parameter),
  ("SecurityContext", SecurityContext),
  ("ConfigFile", ConfigFile),
  ("WorkloadSetting", WorkloadSetting),
  ("Handler", Handler),
  ("HealthProbe", HealthProbe),
  ("TCPSocketAction", TCPSocketAction),
  ("HTTPGetAction", HTTPGetAction),
  ("HTTPHeader", HTTPHeader),
  ("ExecAction", ExecAction),
  ("ApplicationStatus", ApplicationStatus),
  ("ComponentResources", ComponentResources)]



/-! ## The supported fragment, and the value read back -/

/-- Types whose nil value is written as `null`. -/
def GoType.nilable : GoType → Bool
  | .slice _ => true
  | .map _ => true
  | .ptr _ => true
  | _ => false

/-- A field declaration inside the fragment of Go this model is exact on: the
field is exported and not tagged `-`, its tag has neither the `string` option
nor an escape sequence, tag and name are ASCII, and an embedded field without a
tag name is not a pointer. -/
def fieldOk : StructField → Bool
  | .mk name ty tag emb =>
    (name.data ++ tag.data).all (fun c => decide (c.toNat < 128) && c != bslash) &&
    match role (.mk name ty tag emb) with
    | .skip => false
    | .inline => true
    | .leaf _ _ tagged quoted => !quoted && (!emb || tagged || !ty.nilable)

/-- Whether the keys of the candidates are pairwise different. -/
def keysDistinct (ls : List Leaf) : Bool := decide (ls.map fun l => l.key).Nodup

mutual
/-- The types on which the model is exact and no field data is lost: every
field declaration is inside the fragment, no two candidate fields of a struct
have the same key, and a pointer does not point to a pointer, slice or map
(whose nil would be written as the same `null` as the nil pointer). -/
def supported : GoType → Bool
  | .slice t => supported t
  | .map t => supported t
  | .ptr t => supported t && !t.nilable
  | .struct fs => supportedFields fs && keysDistinct (flatten 0 fs)
  | _ => true
/-- Support of one field declaration. -/
def supportedField : StructField → Bool
  | .mk name ty tag emb => fieldOk (.mk name ty tag emb) && supported ty
/-- Support of all field declarations of a struct. -/
def supportedFields : List StructField → Bool
  | [] => true
  | f :: r => supportedField f && supportedFields r
end

mutual
/-- The value `Unmarshal` reads back from the encoding of `v`: `v` itself,
except that an `omitempty` field whose value is empty holds its zero value.
The only values this changes are slices and maps that are empty but not nil. -/
def normalize : GoType → GoVal → GoVal
  | .slice t, .slice xs => .slice (xs.map fun x => normalize t x)
  | .map t, .map m => .map (m.map fun kv => (kv.1, normalize t kv.2))
  | .ptr t, .ptr p => .ptr (normalize t p)
  | .struct fs, .struct vs => .struct (normalizeFields fs vs)
  | _, v => v
/-- The value read back for an inlined embedded struct. -/
def normalizeInline : GoType → GoVal → GoVal
  | .struct fs, .struct vs => .struct (normalizeFields fs vs)
  | _, v => v
/-- The value read back for one declared field. -/
def normalizeField : StructField → GoVal → GoVal
  | .mk name ty tag emb, v =>
    match role (.mk name ty tag emb) with
    | .skip => v
    | .leaf _ o _ _ => if o && isEmptyValue v then zero ty else normalize ty v
    | .inline => normalizeInline ty v
/-- The values read back for the fields of a struct. -/
def normalizeFields : List StructField → List GoVal → List GoVal
  | [], vs => vs
  | _ :: _, [] => []
  | f :: r, v :: vs => normalizeField f v :: normalizeFields r vs
end

mutual
/-- A value in which every empty slice or map is nil. -/
def eraseEmpty : GoVal → GoVal
  | .slice [] => .nil
  | .slice (x :: xs) => .slice (eraseEmpty x :: eraseEmptyList xs)
  | .map [] => .nil
  | .map (kv :: m) => .map ((kv.1, eraseEmpty kv.2) :: eraseEmptyEntries m)
  | .ptr p => .ptr (eraseEmpty p)
  | .struct vs => .struct (eraseEmptyList vs)
  | v => v
/-- Erasure in a list of values. -/
def eraseEmptyList : List GoVal → List GoVal
  | [] => []
  | v :: vs => eraseEmpty v :: eraseEmptyList vs
/-- Erasure in the entries of a map. -/
def eraseEmptyEntries : List (String × GoVal) → List (String × GoVal)
  | [] => []
  | kv :: m => (kv.1, eraseEmpty kv.2) :: eraseEmptyEntries m
end

mutual
/-- A value that holds no slice or map that is empty but not nil. -/
def populated : GoVal → Bool
  | .slice [] => false
  | .slice (x :: xs) => populated x && populatedList xs
  | .map [] => false
  | .map (kv :: m) => populated kv.2 && populatedEntries m
  | .ptr p => populated p
  | .struct vs => populatedList vs
  | _ => true
/-- All values of a list are populated. -/
def populatedList : List GoVal → Bool
  | [] => true
  | v :: vs => populated v && populatedList vs
/-- All values of the entries of a map are populated. -/
def populatedEntries : List (String × GoVal) → Bool
  | [] => true
  | kv :: m => populated kv.2 && populatedEntries m
end

/-! ## The flat view of a struct value -/

mutual
/-- The values of the candidates of an inlined embedded struct. -/
def flatValsInline : GoType → GoVal → List GoVal
  | .struct fs, v => flatVals fs v.fields
  | _, _ => []
/-- The values of the candidates one declared field contributes. -/
def flatValsField : StructField → GoVal → List GoVal
  | .mk name ty tag emb, v =>
    match role (.mk name ty tag emb) with
    | .skip => []
    | .leaf _ _ _ _ => [v]
    | .inline => flatValsInline ty v
/-- The values of all candidates of a struct value, aligned with `flatten`. -/
def flatVals : List StructField → List GoVal → List GoVal
  | [], _ => []
  | f :: r, vs => flatValsField f (vs.headD .nil) ++ flatVals r vs.tail
end

mutual
/-- An inlined embedded struct value has the shape of its type. -/
def shapedInline : GoType → GoVal → Bool
  | .struct fs, .struct vs => shaped fs vs
  | .struct _, _ => false
  | _, _ => true
/-- A field value has the shape its declaration asks for. -/
def shapedField : StructField → GoVal → Bool
  | .mk name ty tag emb, v =>
    match role (.mk name ty tag emb) with
    | .inline => shapedInline ty v
    | _ => true
/-- The values of a struct are as many as its fields, and the inlined embedded
structs among them are struct values of the same kind. -/
def shaped : List StructField → List GoVal → Bool
  | [], [] => true
  | f :: r, v :: vs => shapedField f v && shaped r vs
  | _, _ => false
end

/-! ## Paths into values and into JSON trees -/

/-- The member of a JSON object under a key: the first member with that key. -/
def Json.get (k : String) : Json → Option Json
  | .obj kvs => (kvs.find? fun kv => kv.1 == k).map fun kv => kv.2
  | _ => none

/-- One step of a path: a name (a struct field, a map key, an object member)
or an index (a slice or array element). -/
inductive Step where
  | name (s : String)
  | index (i : Nat)

/-- The JSON value at a path. -/
def Json.select : Json → List Step → Option Json
  | j, [] => some j
  | .obj kvs, .name k :: p => (Json.get k (.obj kvs)).bind fun j => Json.select j p
  | .arr xs, .index i :: p => (xs[i]?).bind fun j => Json.select j p
  | _, _ => none

/-- The Go name of a declared field. -/
def StructField.goName : StructField → String
  | .mk name _ _ _ => name

/-- The type of a declared field. -/
def StructField.goType : StructField → GoType
  | .mk _ ty _ _ => ty

/-- The position of the declared field with the given Go name. -/
def fieldIndex (fs : List StructField) (name : String) : Option Nat :=
  let i := (fs.map StructField.goName).indexOf name
  if i < fs.length then some i else none

/-- The Go value at a path of field names, slice indices and map keys. -/
def select : GoType → GoVal → List Step → Option GoVal
  | _, v, [] => some v
  | t, v, s :: p =>
    match t, v, s with
    | .struct fs, .struct vs, .name n =>
      match fieldIndex fs n with
      | none => none
      | some i =>
        match fs[i]?, vs[i]? with
        | some f, some w => select f.goType w p
        | _, _ => none
    | .slice t, .slice xs, .index i =>
      match xs[i]? with
      | some w => select t w p
      | none => none
    | .map t, .map m, .name k =>
      match mapLookup k m with
      | some w => select t w p
      | none => none
    | _, _, _ => none

/-- The declared fields of a struct type. -/
def GoType.fields : GoType → List StructField
  | .struct fs => fs
  | _ => []

/-- A struct value with the declared field of the given Go name replaced. -/
def GoVal.withField (t : GoType) (name : String) (w v : GoVal) : GoVal :=
  match fieldIndex t.fields name with
  | some i => .struct (v.fields.set i w)
  | none => v

/-- Structs none of whose fields is skipped or inlined. -/
def plain (fs : List StructField) : Bool :=
  fs.all fun f => match role f with
    | .leaf _ _ _ _ => true
    | _ => false

mutual
/-- A JSON tree obtained from another by deleting object members, at any depth. -/
def Json.pruned : Json → Json → Bool
  | .null, .null => true
  | .bool a, .bool b => a == b
  | .num a, .num b => a == b
  | .str a, .str b => a == b
  | .arr as, .arr bs => Json.prunedList as bs
  | .obj as, .obj bs => Json.prunedMembers as bs
  | _, _ => false
/-- Element-wise pruning of the elements of an array. -/
def Json.prunedList : List Json → List Json → Bool
  | [], [] => true
  | a :: as, b :: bs => Json.pruned a b && Json.prunedList as bs
  | _, _ => false
/-- The members of the pruned object are, in order, pruned members of the
other object. -/
def Json.prunedMembers : List (String × Json) → List (String × Json) → Bool
  | [], _ => true
  | _ :: _, [] => false
  | a :: as, b :: bs =>
    (a.1 == b.1 && Json.pruned a.2 b.2 && Json.prunedMembers as bs) ||
      Json.prunedMembers (a :: as) bs
end

/-! ## Go map operations -/

/-- The map index expression `m[k]`: none when the key is absent, also in a nil
map. -/
def mapIndex (m : GoVal) (k : String) : Option GoVal := mapLookup k m.entries

/-- The map assignment `m[k] = v`.  Assigning to an entry of a nil map is a
run-time panic (`none`). -/
def mapAssign (m : GoVal) (k : String) (v : GoVal) : Option GoVal :=
  match m with
  | .map es => some (.map (mapInsert k v es))
  | _ => none

/-! ## Values used in the statements -/

/-- An instance of the three external types, to exercise the theorems: an empty
`Namespaced`, a `TypeMeta` with a kind and an API version, an `ObjectMeta` with
a name and a namespace. -/
def sampleExternal : External where
  Namespaced := .struct []
  TypeMeta := .struct [
    .mk "Kind" .string "json:\"kind,omitempty\"" false,
    .mk "APIVersion" .string "json:\"apiVersion,omitempty\"" false]
  ObjectMeta := .struct [
    .mk "Name" .string "json:\"name,omitempty\"" false,
    .mk "Namespace" .string "json:\"namespace,omitempty\"" false]

/-- The lookup `st.ComponentResource[k]` on an `ApplicationStatus`. -/
def statusIndex (st : GoVal) (k : String) : Option GoVal :=
  select ApplicationStatus st [.name "ComponentResource", .name k]

/-- The assignment `st.ComponentResource[k] = v` on an `ApplicationStatus`; it
panics (`none`) when the map is nil. -/
def statusAssign (st : GoVal) (k : String) (v : GoVal) : Option GoVal :=
  match select ApplicationStatus st [.name "ComponentResource"] with
  | some m =>
    (mapAssign m k v).map fun m2 => GoVal.withField ApplicationStatus "ComponentResource" m2 st
  | none => none

/-- The keys of the candidate fields of a struct type, case-folded. -/
def foldedKeys (t : GoType) : List String :=
  (flatten 0 t.fields).map fun l => foldName l.key

/-- The case-folded keys that the embedded `Namespaced` and `TypeMeta`
contribute to `Application`. -/
def externalKeys (x : External) : List String :=
  (flatten 0 ((Application x).fields.take 2)).map fun l => foldName l.key

/-! ## Vocabulary of the proofs -/

/-- One step of decoding an object into a struct: the member is stored into
the field its key resolves to, and ignored when it resolves to none. -/
def storeMember (fs : List StructField) (vs : List GoVal) (kv : String × Json) :
    Option (List GoVal) :=
  match findField fs kv.1 with
  | none => some vs
  | some i => unmarshalFields fs i vs kv.2

/-- Decoding the JSON value succeeds whatever the variable holds, and so does
decoding any pruning of it. -/
def Tolerant (t : GoType) : Prop :=
  ∀ j j' cur cur', Json.pruned j' j = true → (unmarshalInto t cur j).isSome = true →
    (unmarshalInto t cur' j').isSome = true

/-! ## Decidable equality of values and JSON trees -/

mutual
theorem goVal_eq_of_beq : ∀ a b : GoVal, GoVal.beq a b = true → a = b
  | .str a, b => by cases b <;> simp [GoVal.beq]
  | .bool a, b => by cases b <;> simp [GoVal.beq]
  | .int a, b => by cases b <;> simp [GoVal.beq]
  | .nil, b => by cases b <;> simp [GoVal.beq]
  | .slice a, b => by
    cases b <;> simp [GoVal.beq]
    exact goVal_eq_of_beqList a _
  | .map a, b => by
    cases b <;> simp [GoVal.beq]
    exact goVal_eq_of_beqEntries a _
  | .ptr a, b => by
    cases b <;> simp [GoVal.beq]
    exact goVal_eq_of_beq a _
  | .struct a, b => by
    cases b <;> simp [GoVal.beq]
    exact goVal_eq_of_beqList a _
theorem goVal_eq_of_beqList : ∀ a b : List GoVal, GoVal.beqList a b = true → a = b
  | [], b => by cases b <;> simp [GoVal.beqList]
  | a :: as, b => by
    cases b <;> simp [GoVal.beqList]
    intro h1 h2
    exact ⟨goVal_eq_of_beq a _ h1, goVal_eq_of_beqList as _ h2⟩
theorem goVal_eq_of_beqEntries :
    ∀ a b : List (String × GoVal), GoVal.beqEntries a b = true → a = b
  | [], b => by cases b <;> simp [GoVal.beqEntries]
  | (k, a) :: as, b => by
    cases b with
    | nil => simp [GoVal.beqEntries]
    | cons hd tl =>
      obtain ⟨l, c⟩ := hd
      simp [GoVal.beqEntries]
      intro h1 h2 h3
      exact ⟨⟨h1, goVal_eq_of_beq a _ h2⟩, goVal_eq_of_beqEntries as _ h3⟩
end

mutual
theorem goVal_beq_self : ∀ a : GoVal, GoVal.beq a a = true
  | .str a => by simp [GoVal.beq]
  | .bool a => by simp [GoVal.beq]
  | .int a => by simp [GoVal.beq]
  | .nil => by simp [GoVal.beq]
  | .slice a => by simp [GoVal.beq]; exact goVal_beqList_self a
  | .map a => by simp [GoVal.beq]; exact goVal_beqEntries_self a
  | .ptr a => by simp [GoVal.beq]; exact goVal_beq_self a
  | .struct a => by simp [GoVal.beq]; exact goVal_beqList_self a
theorem goVal_beqList_self : ∀ a : List GoVal, GoVal.beqList a a = true
  | [] => by simp [GoVal.beqList]
  | a :: as => by simp [GoVal.beqList]; exact ⟨goVal_beq_self a, goVal_beqList_self as⟩
theorem goVal_beqEntries_self : ∀ a : List (String × GoVal), GoVal.beqEntries a a = true
  | [] => by simp [GoVal.beqEntries]
  | (k, a) :: as => by
    simp [GoVal.beqEntries]; exact ⟨goVal_beq_self a, goVal_beqEntries_self as⟩
end

instance : DecidableEq GoVal := fun a b =>
  if h : GoVal.beq a b = true then isTrue (goVal_eq_of_beq a b h)
  else isFalse fun e => h (e ▸ goVal_beq_self a)

mutual
theorem json_eq_of_beq : ∀ a b : Json, Json.beq a b = true → a = b
  | .null, b => by cases b <;> simp [Json.beq]
  | .bool a, b => by cases b <;> simp [Json.beq]
  | .num a, b => by cases b <;> simp [Json.beq]
  | .str a, b => by cases b <;> simp [Json.beq]
  | .arr a, b => by
    cases b <;> simp [Json.beq]
    exact json_eq_of_beqList a _
  | .obj a, b => by
    cases b <;> simp [Json.beq]
    exact json_eq_of_beqMembers a _
theorem json_eq_of_beqList : ∀ a b : List Json, Json.beqList a b = true → a = b
  | [], b => by cases b <;> simp [Json.beqList]
  | a :: as, b => by
    cases b <;> simp [Json.beqList]
    intro h1 h2
    exact ⟨json_eq_of_beq a _ h1, json_eq_of_beqList as _ h2⟩
theorem json_eq_of_beqMembers :
    ∀ a b : List (String × Json), Json.beqMembers a b = true → a = b
  | [], b => by cases b <;> simp [Json.beqMembers]
  | (k, a) :: as, b => by
    cases b with
    | nil => simp [Json.beqMembers]
    | cons hd tl =>
      obtain ⟨l, c⟩ := hd
      simp [Json.beqMembers]
      intro h1 h2 h3
      exact ⟨⟨h1, json_eq_of_beq a _ h2⟩, json_eq_of_beqMembers as _ h3⟩
end

mutual
theorem json_beq_self : ∀ a : Json, Json.beq a a = true
  | .null => by simp [Json.beq]
  | .bool a => by simp [Json.beq]
  | .num a => by simp [Json.beq]
  | .str a => by simp [Json.beq]
  | .arr a => by simp [Json.beq]; exact json_beqList_self a
  | .obj a => by simp [Json.beq]; exact json_beqMembers_self a
theorem json_beqList_self : ∀ a : List Json, Json.beqList a a = true
  | [] => by simp [Json.beqList]
  | a :: as => by simp [Json.beqList]; exact ⟨json_beq_self a, json_beqList_self as⟩
theorem json_beqMembers_self : ∀ a : List (String × Json), Json.beqMembers a a = true
  | [] => by simp [Json.beqMembers]
  | (k, a) :: as => by
    simp [Json.beqMembers]; exact ⟨json_beq_self a, json_beqMembers_self as⟩
end

instance : DecidableEq Json := fun a b =>
  if h : Json.beq a b = true then isTrue (json_eq_of_beq a b h)
  else isFalse fun e => h (e ▸ json_beq_self a)

/-! ## Induction over field declarations -/

/-- Induction over the fields of a struct that also descends into the fields of
a field's struct type. -/
theorem fields_induct {P : List StructField → Prop} (hnil : P [])
    (hcons : ∀ name ty tag emb r, (∀ fs, ty = .struct fs → P fs) → P r →
      P (.mk name ty tag emb :: r)) : ∀ fs, P fs
  | [] => hnil
  | .mk name ty tag emb :: r =>
    hcons name ty tag emb r
      (fun fs _ => fields_induct hnil hcons fs) (fields_induct hnil hcons r)
termination_by fs => sizeOf fs
decreasing_by
  all_goals simp_wf
  all_goals (try subst_vars)
  all_goals (try simp)
  all_goals (try omega)

theorem flatten_cons (d : Nat) (f : StructField) (r : List StructField) :
    flatten d (f :: r) = flattenField d f ++ flatten d r := by
  simp [flatten]

theorem flatVals_cons (f : StructField) (r : List StructField) (vs : List GoVal) :
    flatVals (f :: r) vs = flatValsField f (vs.headD .nil) ++ flatVals r vs.tail := by
  simp [flatVals]

/-- The flat view has one value per candidate. -/
theorem flatVals_length : ∀ fs, ∀ d vs, (flatVals fs vs).length = (flatten d fs).length := by
  intro fs
  induction fs using fields_induct with
  | hnil => intro d vs; simp [flatVals, flatten]
  | hcons name ty tag emb r ih1 ih2 =>
    intro d vs
    rw [flatVals_cons, flatten_cons, List.length_append, List.length_append, ih2 d]
    congr 1
    simp only [flatValsField, flattenField]
    cases hr : role (.mk name ty tag emb) with
    | skip => simp
    | leaf k o t q => simp
    | inline =>
      cases ty <;> simp [flatValsInline, flattenType]
      exact ih1 _ rfl _ _

/-- The candidates one field contributes have one value each. -/
theorem flatValsField_length (f : StructField) (d : Nat) (v : GoVal) :
    (flatValsField f v).length = (flattenField d f).length := by
  have h := flatVals_length [f] d [v]
  simpa [flatVals, flatten] using h

/-- The number of candidates does not depend on the depth they are recorded at. -/
theorem flattenField_length (f : StructField) (d e : Nat) :
    (flattenField d f).length = (flattenField e f).length := by
  rw [← flatValsField_length f d .nil, ← flatValsField_length f e .nil]

/-- An inlined field is an embedded struct. -/
theorem role_inline {name : String} {ty : GoType} {tag : String} {emb : Bool}
    (h : role (.mk name ty tag emb) = .inline) : ∃ fs, ty = .struct fs := by
  simp only [role] at h
  split_ifs at h
  all_goals (cases ty <;> simp_all [GoType.isStruct])

/-- Well-typed field values have the shape of the struct. -/
theorem shaped_of_hasType : ∀ fs, ∀ vs, hasTypeFields fs vs = true → shaped fs vs = true := by
  intro fs
  induction fs using fields_induct with
  | hnil => intro vs h; cases vs <;> simp_all [hasTypeFields, shaped]
  | hcons name ty tag emb r ih1 ih2 =>
    intro vs h
    cases vs with
    | nil => simp [hasTypeFields] at h
    | cons v vs =>
      simp only [hasTypeFields, hasTypeField, Bool.and_eq_true] at h
      simp only [shaped, shapedField, Bool.and_eq_true]
      refine ⟨?_, ih2 _ h.2⟩
      cases hr : role (.mk name ty tag emb) with
      | skip => rfl
      | leaf k o t q => rfl
      | inline =>
        obtain ⟨fs, rfl⟩ := role_inline hr
        cases v <;> simp_all [hasType, shapedInline]

/-- The flat view of the zero value of a struct. -/
theorem flatVals_zero : ∀ fs, ∀ d,
    flatVals fs (zeroFields fs) = (flatten d fs).map (fun l => zero l.ty) ∧
    shaped fs (zeroFields fs) = true := by
  intro fs
  induction fs using fields_induct with
  | hnil => intro d; simp [flatten, flatVals, zeroFields, shaped]
  | hcons name ty tag emb r ih1 ih2 =>
    intro d
    simp only [zeroFields, zeroField, flatVals_cons, flatten_cons, List.headD_cons, List.tail_cons,
      List.map_append, shaped, Bool.and_eq_true, (ih2 d).1, (ih2 d).2, and_true]
    simp only [flatValsField, flattenField, shapedField]
    cases hr : role (.mk name ty tag emb) with
    | skip => simp
    | leaf k o t q => simp
    | inline =>
      obtain ⟨fs, rfl⟩ := role_inline hr
      simp only [flatValsInline, flattenType, zero, GoVal.fields, shapedInline]
      exact ⟨by rw [(ih1 _ rfl (d + 1)).1], (ih1 _ rfl (d + 1)).2⟩

/-- A field inside the fragment is not skipped. -/
theorem role_ne_skip {f : StructField} (h : fieldOk f = true) : role f ≠ .skip := by
  obtain ⟨name, ty, tag, emb⟩ := f
  intro hr
  simp [fieldOk, hr] at h

/-- A shaped struct value is determined by the values of its candidates. -/
theorem flatVals_inj : ∀ fs, supportedFields fs = true → ∀ a b, shaped fs a = true →
    shaped fs b = true → flatVals fs a = flatVals fs b → a = b := by
  intro fs
  induction fs using fields_induct with
  | hnil => intro _ a b ha hb _; cases a <;> cases b <;> simp_all [shaped]
  | hcons name ty tag emb r ih1 ih2 =>
    intro hs a b ha hb hab
    simp only [supportedFields, supportedField, Bool.and_eq_true] at hs
    cases a with
    | nil => simp [shaped] at ha
    | cons va a =>
      cases b with
      | nil => simp [shaped] at hb
      | cons vb b =>
        simp only [shaped, Bool.and_eq_true] at ha hb
        simp only [flatVals_cons, List.headD_cons, List.tail_cons] at hab
        have hlen : (flatValsField (.mk name ty tag emb) va).length =
            (flatValsField (.mk name ty tag emb) vb).length := by
          rw [flatValsField_length _ 0, flatValsField_length _ 0]
        obtain ⟨h1, h2⟩ := List.append_inj hab hlen
        rw [ih2 hs.2 a b ha.2 hb.2 h2]
        congr 1
        have hne := role_ne_skip hs.1.1
        simp only [flatValsField, shapedField] at h1 ha hb
        cases hr : role (.mk name ty tag emb) with
        | skip => exact absurd hr hne
        | leaf k o t q => simpa [hr] using h1
        | inline =>
          obtain ⟨fs, rfl⟩ := role_inline hr
          simp only [hr] at h1 ha hb
          have h3 := hs.1.2
          simp only [supported, Bool.and_eq_true] at h3
          cases va <;> simp [shapedInline] at ha
          cases vb <;> simp [shapedInline] at hb
          simp only [flatValsInline, GoVal.fields] at h1
          rw [ih1 _ rfl h3.1 _ _ ha.1 hb.1 h1]

theorem unmarshalFields_cons (f : StructField) (r : List StructField) (i : Nat)
    (vs : List GoVal) (j : Json) :
    unmarshalFields (f :: r) i vs j =
      if i < (flattenField 0 f).length then
        (unmarshalField f i (vs.headD .nil) j).map fun v => v :: vs.tail
      else
        (unmarshalFields r (i - (flattenField 0 f).length) vs.tail j).map
          fun t => vs.headD .nil :: t := by
  simp [unmarshalFields]

/-- Decoding into candidate `i` of a struct decodes into the value of that
candidate and changes nothing else. -/
theorem unmarshalFields_eq : ∀ fs, ∀ d i cur j l c,
    (flatten d fs)[i]? = some l → (flatVals fs cur)[i]? = some c → shaped fs cur = true →
    ∃ g : GoVal → List GoVal,
      unmarshalFields fs i cur j = (unmarshalInto l.ty c j).map g ∧
      ∀ w, shaped fs (g w) = true ∧ flatVals fs (g w) = (flatVals fs cur).set i w := by
  intro fs
  induction fs using fields_induct with
  | hnil => intro d i cur j l c hl; simp [flatten] at hl
  | hcons name ty tag emb r ih1 ih2 =>
    intro d i cur j l c hl hc hsh
    cases cur with
    | nil => simp [shaped] at hsh
    | cons v vs =>
      simp only [shaped, Bool.and_eq_true] at hsh
      have hn0 := flattenField_length (.mk name ty tag emb) 0 d
      have hnv := flatValsField_length (.mk name ty tag emb) d v
      rw [unmarshalFields_cons, hn0]
      simp only [flatVals_cons, flatten_cons, List.headD_cons, List.tail_cons] at hl hc ⊢
      by_cases hi : i < (flattenField d (.mk name ty tag emb)).length
      · rw [if_pos hi]
        rw [List.getElem?_append_left hi] at hl
        rw [List.getElem?_append_left (by omega)] at hc
        -- the field level
        have key : ∃ g : GoVal → GoVal,
            unmarshalField (.mk name ty tag emb) i v j = (unmarshalInto l.ty c j).map g ∧
            ∀ w, shapedField (.mk name ty tag emb) (g w) = true ∧
              flatValsField (.mk name ty tag emb) (g w) =
                (flatValsField (.mk name ty tag emb) v).set i w := by
          simp only [flattenField, flatValsField, unmarshalField, shapedField] at hl hc hsh ⊢
          cases hr : role (.mk name ty tag emb) with
          | skip => simp [hr] at hl
          | leaf k o t q =>
            simp only [hr] at hl hc
            cases i with
            | succ i => simp at hl
            | zero =>
              simp at hl hc
              subst hl hc
              exact ⟨id, by simp, fun w => by simp⟩
          | inline =>
            obtain ⟨fs, rfl⟩ := role_inline hr
            simp only [hr, flattenType, flatValsInline] at hl hc hsh
            cases v <;> simp [shapedInline] at hsh
            simp only [GoVal.fields] at hc
            obtain ⟨g, hg1, hg2⟩ := ih1 _ rfl (d + 1) i _ j l c hl hc hsh.1
            refine ⟨fun w => .struct (g w), ?_, fun w => ?_⟩
            · simp [unmarshalInline, GoVal.fields, hg1, Option.map_map, Function.comp_def]
            · simp [shapedInline, flatValsInline, GoVal.fields, hg2 w]
        obtain ⟨g, hg1, hg2⟩ := key
        refine ⟨fun w => g w :: vs, ?_, fun w => ?_⟩
        · simp [hg1, Option.map_map, Function.comp_def]
        · simp only [shaped, Bool.and_eq_true, (hg2 w).1, hsh.2, and_self, flatVals_cons,
            List.headD_cons, List.tail_cons, (hg2 w).2, true_and]
          rw [List.set_append_left _ _ (by omega)]
      · rw [if_neg hi]
        rw [List.getElem?_append_right (by omega)] at hl
        rw [List.getElem?_append_right (by omega), hnv] at hc
        obtain ⟨g, hg1, hg2⟩ := ih2 d _ vs j l c hl hc hsh.2
        refine ⟨fun w => v :: g w, ?_, fun w => ?_⟩
        · simp [hg1, Option.map_map, Function.comp_def]
        · simp only [shaped, Bool.and_eq_true, (hg2 w).1, hsh.1, and_self, flatVals_cons,
            List.headD_cons, List.tail_cons, (hg2 w).2, true_and]
          rw [List.set_append_right _ _ (by omega), hnv]

/-! ## Field resolution when all keys differ -/

theorem keysDistinct_iff (ls : List Leaf) :
    keysDistinct ls = true ↔ (ls.map fun l => l.key).Nodup := by
  simp [keysDistinct]

/-- With pairwise different keys every candidate survives. -/
theorem active_of_distinct {ls : List Leaf} (h : keysDistinct ls = true) {i : Nat}
    (hi : i < ls.length) : active ls i = true := by
  rw [keysDistinct_iff] at h
  simp only [active, List.getElem?_eq_getElem hi, List.all_eq_true]
  intro jb hjb
  rw [List.mem_enum_iff_getElem?] at hjb
  by_cases hj : jb.1 = i
  · simp [hj]
  · have hjl : jb.1 < ls.length := by
      by_contra hc
      rw [List.getElem?_eq_none (by omega)] at hjb
      cases hjb
    have hne : jb.2.key ≠ ls[i].key := by
      intro he
      have h1 : (ls.map fun l => l.key)[jb.1]? = some jb.2.key := by simp [hjb]
      have h2 : (ls.map fun l => l.key)[i]? = some jb.2.key := by
        simp [List.getElem?_eq_getElem hi, he]
      have hlen1 : jb.1 < (ls.map fun l => l.key).length := by simpa using hjl
      have hlen2 : i < (ls.map fun l => l.key).length := by simpa using hi
      rw [List.getElem?_eq_getElem hlen1] at h1
      rw [List.getElem?_eq_getElem hlen2] at h2
      exact hj ((List.Nodup.getElem_inj_iff h).1 (Option.some.inj (h1.trans h2.symm)))
    simp [hne]

/-- With pairwise different keys `typeFields` keeps every candidate. -/
theorem typeFields_eq {fs : List StructField} (h : keysDistinct (flatten 0 fs) = true) :
    typeFields fs = (flatten 0 fs).enum := by
  simp only [typeFields]
  rw [List.filter_eq_self]
  intro il hil
  exact active_of_distinct h (List.fst_lt_of_mem_enum hil)

theorem find_enumFrom_key : ∀ (ls : List Leaf) (n i : Nat) (l : Leaf),
    (ls.map fun l => l.key).Nodup → ls[i]? = some l →
    (ls.enumFrom n).find? (fun il => il.2.key == l.key) = some (n + i, l) := by
  intro ls
  induction ls with
  | nil => intro n i l _ h; simp at h
  | cons a ls ih =>
    intro n i l hnd h
    simp only [List.map_cons, List.nodup_cons] at hnd
    cases i with
    | zero =>
      simp at h
      subst h
      simp [List.enumFrom_cons, List.find?_cons]
    | succ i =>
      simp at h
      have hmem : l.key ∈ ls.map fun l => l.key :=
        List.mem_map.2 ⟨l, List.getElem?_mem h, rfl⟩
      have hne : a.key ≠ l.key := fun he => hnd.1 (he ▸ hmem)
      have hb : (a.key == l.key) = false := by simpa using hne
      have : n + 1 + i = n + (i + 1) := by omega
      simp only [List.enumFrom_cons, List.find?_cons, hb]
      rw [ih (n + 1) i l hnd.2 h, this]

/-- With pairwise different keys, the key of a candidate is decoded into it. -/
theorem findField_key {fs : List StructField} (h : keysDistinct (flatten 0 fs) = true)
    {i : Nat} {l : Leaf} (hl : (flatten 0 fs)[i]? = some l) : findField fs l.key = some i := by
  simp only [findField, typeFields_eq h, List.enum]
  rw [find_enumFrom_key _ 0 i l ((keysDistinct_iff _).1 h) hl]
  simp

theorem unmarshalInto_struct_obj (fs : List StructField) (cur : GoVal)
    (kvs : List (String × Json)) :
    unmarshalInto (.struct fs) cur (.obj kvs) =
      (kvs.foldlM (storeMember fs) cur.fields).map GoVal.struct := by
  simp only [unmarshalInto]
  rfl

theorem unmarshalInto_ptr (t : GoType) (cur : GoVal) (j : Json) (hj : j ≠ .null) :
    unmarshalInto (.ptr t) cur j =
      (unmarshalInto t (cur.pointee (zero t)) j).map GoVal.ptr := by
  cases j <;> simp_all [unmarshalInto]

/-! ## Induction over types -/

theorem sizeOf_leaf : ∀ fs, ∀ d l, l ∈ flatten d fs → sizeOf l.ty < sizeOf fs := by
  intro fs
  induction fs using fields_induct with
  | hnil => intro d l hl; simp [flatten] at hl
  | hcons name ty tag emb r ih1 ih2 =>
    intro d l hl
    rw [flatten_cons, List.mem_append] at hl
    rcases hl with hl | hl
    · simp only [flattenField] at hl
      cases hr : role (.mk name ty tag emb) with
      | skip => simp [hr] at hl
      | leaf k o t q =>
        simp [hr] at hl
        subst hl
        simp
        omega
      | inline =>
        obtain ⟨fs, rfl⟩ := role_inline hr
        simp only [hr, flattenType] at hl
        have := ih1 _ rfl _ l hl
        simp
        omega
    · have := ih2 d l hl
      simp
      omega

/-- Induction over types; the struct case may assume the property of the types
of all candidate fields. -/
theorem type_induct {P : GoType → Prop} (hstring : P .string) (hbool : P .bool)
    (hint : ∀ n, P (.int n)) (huint : ∀ n, P (.uint n))
    (hslice : ∀ t, P t → P (.slice t)) (hmap : ∀ t, P t → P (.map t))
    (hptr : ∀ t, P t → P (.ptr t))
    (hstruct : ∀ fs, (∀ d, ∀ l ∈ flatten d fs, P l.ty) → P (.struct fs)) : ∀ t, P t := by
  intro t
  suffices H : ∀ n, ∀ t : GoType, sizeOf t = n → P t from H _ t rfl
  intro n
  induction n using Nat.strong_induction_on with
  | _ n ih =>
    intro t h
    cases t with
    | string => exact hstring
    | bool => exact hbool
    | int n => exact hint n
    | uint n => exact huint n
    | slice t => exact hslice t (ih _ (by subst h; simp) t rfl)
    | map t => exact hmap t (ih _ (by subst h; simp) t rfl)
    | ptr t => exact hptr t (ih _ (by subst h; simp) t rfl)
    | struct fs =>
      refine hstruct fs (fun d l hl => ih _ ?_ l.ty rfl)
      have := sizeOf_leaf fs d l hl
      subst h
      simp
      omega

/-! ## Round trip -/

theorem plain_cons (f : StructField) (r : List StructField) :
    plain (f :: r) = true ↔ (∃ k o t q, role f = .leaf k o t q) ∧ plain r = true := by
  simp only [plain, List.all_cons, Bool.and_eq_true]
  constructor
  · rintro ⟨h1, h2⟩
    refine ⟨?_, h2⟩
    cases hr : role f with
    | skip => simp [hr] at h1
    | inline => simp [hr] at h1
    | leaf k o t q => exact ⟨k, o, t, q, rfl⟩
  · rintro ⟨⟨k, o, t, q, hr⟩, h2⟩
    exact ⟨by simp [hr], h2⟩

/-- The candidates of a plain struct are its declared fields. -/
theorem flatVals_plain : ∀ (fs : List StructField) (vs : List GoVal), plain fs = true →
    vs.length = fs.length → flatVals fs vs = vs ∧ shaped fs vs = true := by
  intro fs
  induction fs with
  | nil => intro vs _ h; cases vs <;> simp_all [flatVals, shaped]
  | cons f r ih =>
    intro vs hp hlen
    rw [plain_cons] at hp
    obtain ⟨⟨k, o, t, q, hr⟩, hp2⟩ := hp
    cases vs with
    | nil => simp at hlen
    | cons v vs =>
      obtain ⟨name, ty, tag, emb⟩ := f
      have := ih vs hp2 (by simpa using hlen)
      simp [flatVals, flatValsField, shaped, shapedField, hr, this.1, this.2]

theorem flatten_plain_length : ∀ (fs : List StructField) (d : Nat), plain fs = true →
    (flatten d fs).length = fs.length := by
  intro fs d hp
  have h := flatVals_length fs d (zeroFields fs)
  have hz : (zeroFields fs).length = fs.length := by
    clear h hp
    induction fs with
    | nil => simp [zeroFields]
    | cons f r ih => simp [zeroFields, ih]
  rw [(flatVals_plain fs _ hp hz).1] at h
  omega

theorem hasTypeFields_length : ∀ (fs : List StructField) (vs : List GoVal),
    hasTypeFields fs vs = true → vs.length = fs.length := by
  intro fs
  induction fs with
  | nil => intro vs h; cases vs <;> simp_all [hasTypeFields]
  | cons f r ih =>
    intro vs h
    cases vs with
    | nil => simp [hasTypeFields] at h
    | cons v vs =>
      simp only [hasTypeFields, Bool.and_eq_true] at h
      simp [ih vs h.2]

theorem zeroFields_length : ∀ fs : List StructField, (zeroFields fs).length = fs.length
  | [] => by simp [zeroFields]
  | f :: r => by simp [zeroFields, zeroFields_length r]

/-! ## Deleting members never makes decoding fail -/

theorem foldlM_mono {σ : Type} (step : σ → String × Json → Option σ)
    (hstep : ∀ kv kv' s s', kv'.1 = kv.1 → Json.pruned kv'.2 kv.2 = true →
      (step s kv).isSome = true → (step s' kv').isSome = true) :
    ∀ (kvs kvs' : List (String × Json)) (s s' : σ), Json.prunedMembers kvs' kvs = true →
      (kvs.foldlM step s).isSome = true → (kvs'.foldlM step s').isSome = true := by
  intro kvs
  induction kvs with
  | nil =>
    intro kvs' s s' hp _
    cases kvs' with
    | nil => simp
    | cons a as => simp [Json.prunedMembers] at hp
  | cons b bs ih =>
    intro kvs' s s' hp hs
    cases kvs' with
    | nil => simp
    | cons a as =>
      simp only [List.foldlM_cons, Option.bind_eq_bind] at hs
      cases hb : step s b with
      | none => simp [hb] at hs
      | some s1 =>
        simp only [hb, Option.some_bind] at hs
        simp only [Json.prunedMembers, Bool.or_eq_true, Bool.and_eq_true, beq_iff_eq] at hp
        rcases hp with ⟨⟨h1, h2⟩, h3⟩ | hp
        · have ha := hstep b a s s' h1 h2 (by simp [hb])
          cases ha2 : step s' a with
          | none => simp [ha2] at ha
          | some s1' =>
            simp only [List.foldlM_cons, Option.bind_eq_bind, ha2, Option.some_bind]
            exact ih as s1 s1' h3 hs
        · exact ih (a :: as) s1 s' hp hs

theorem allOrNone_mono (f : Json → Option GoVal)
    (hf : ∀ x x', Json.pruned x' x = true → (f x).isSome = true → (f x').isSome = true) :
    ∀ (xs xs' : List Json), Json.prunedList xs' xs = true →
      (allOrNone (xs.map f)).isSome = true → (allOrNone (xs'.map f)).isSome = true := by
  intro xs
  induction xs with
  | nil =>
    intro xs' hp _
    cases xs' with
    | nil => rfl
    | cons a as => simp [Json.prunedList] at hp
  | cons b bs ih =>
    intro xs' hp hs
    cases xs' with
    | nil => simp [Json.prunedList] at hp
    | cons a as =>
      simp only [Json.prunedList, Bool.and_eq_true] at hp
      simp only [List.map_cons] at hs ⊢
      cases hb : f b with
      | none => simp [hb, allOrNone] at hs
      | some w =>
        simp only [hb, allOrNone, Option.isSome_map'] at hs
        have h1 := hf b a hp.1 (by simp [hb])
        have h2 := ih as hp.2 hs
        cases ha : f a with
        | none => simp [ha] at h1
        | some w' => simpa [allOrNone] using h2

/-- Decoding into a candidate of a struct tolerates pruning when the types of
the candidates do. -/
theorem unmarshalFields_mono : ∀ fs, ∀ d, (∀ l ∈ flatten d fs, Tolerant l.ty) →
    ∀ i vs vs' j j', Json.pruned j' j = true → (unmarshalFields fs i vs j).isSome = true →
      (unmarshalFields fs i vs' j').isSome = true := by
  intro fs
  induction fs using fields_induct with
  | hnil => intro d _ i vs vs' j j' _ _; simp [unmarshalFields]
  | hcons name ty tag emb r ih1 ih2 =>
    intro d hl i vs vs' j j' hp hs
    simp only [flatten_cons, List.mem_append] at hl
    rw [unmarshalFields_cons] at hs ⊢
    split_ifs at hs ⊢ with hi
    · simp only [Option.isSome_map'] at hs ⊢
      have hl1 := fun l h => hl l (Or.inl h)
      simp only [flattenField] at hl1
      simp only [unmarshalField] at hs ⊢
      cases hr : role (.mk name ty tag emb) with
      | skip => simp
      | leaf k o t q =>
        simp only [hr, List.mem_singleton, forall_eq] at hl1
        simp only [hr] at hs ⊢
        exact hl1 j j' _ _ hp hs
      | inline =>
        obtain ⟨fs, rfl⟩ := role_inline hr
        simp only [hr, flattenType] at hl1
        simp only [hr, unmarshalInline, Option.isSome_map'] at hs ⊢
        exact ih1 _ rfl (d + 1) hl1 _ _ _ _ _ hp hs
    · simp only [Option.isSome_map'] at hs ⊢
      exact ih2 d (fun l h => hl l (Or.inr h)) _ _ _ _ _ hp hs

theorem pruned_null {j' : Json} (h : Json.pruned j' .null = true) : j' = .null := by
  cases j' <;> simp_all [Json.pruned]

theorem pruned_bool {j' : Json} {b : Bool} (h : Json.pruned j' (.bool b) = true) :
    j' = .bool b := by
  cases j' <;> simp_all [Json.pruned]

theorem pruned_num {j' : Json} {n : Int} (h : Json.pruned j' (.num n) = true) :
    j' = .num n := by
  cases j' <;> simp_all [Json.pruned]

theorem pruned_str {j' : Json} {s : String} (h : Json.pruned j' (.str s) = true) :
    j' = .str s := by
  cases j' <;> simp_all [Json.pruned]

theorem pruned_arr {j' : Json} {xs : List Json} (h : Json.pruned j' (.arr xs) = true) :
    ∃ xs', j' = .arr xs' ∧ Json.prunedList xs' xs = true := by
  cases j' <;> simp_all [Json.pruned]

theorem pruned_obj {j' : Json} {kvs : List (String × Json)}
    (h : Json.pruned j' (.obj kvs) = true) :
    ∃ kvs', j' = .obj kvs' ∧ Json.prunedMembers kvs' kvs = true := by
  cases j' <;> simp_all [Json.pruned]

/-- Every type tolerates pruning. -/
theorem tolerant : ∀ t, Tolerant t := by
  intro t
  induction t using type_induct with
  | hstring =>
    intro j j' cur cur' hp hs
    cases j <;> simp [unmarshalInto] at hs
    · rw [pruned_null hp]; simp [unmarshalInto]
    · rw [pruned_str hp]; simp [unmarshalInto]
  | hbool =>
    intro j j' cur cur' hp hs
    cases j <;> simp [unmarshalInto] at hs
    · rw [pruned_null hp]; simp [unmarshalInto]
    · rw [pruned_bool hp]; simp [unmarshalInto]
  | hint n =>
    intro j j' cur cur' hp hs
    cases j <;> simp [unmarshalInto] at hs
    · rw [pruned_null hp]; simp [unmarshalInto]
    · rw [pruned_num hp]; simp [unmarshalInto, hs]
  | huint n =>
    intro j j' cur cur' hp hs
    cases j <;> simp [unmarshalInto] at hs
    · rw [pruned_null hp]; simp [unmarshalInto]
    · rw [pruned_num hp]; simp [unmarshalInto, hs]
  | hslice t ih =>
    intro j j' cur cur' hp hs
    cases j <;> simp [unmarshalInto] at hs
    · rw [pruned_null hp]; simp [unmarshalInto]
    · obtain ⟨xs', rfl, hp'⟩ := pruned_arr hp
      simp only [unmarshalInto, Option.isSome_map']
      exact allOrNone_mono _ (fun x x' hx h => ih x x' _ _ hx h) _ _ hp' (by simpa using hs)
  | hmap t ih =>
    intro j j' cur cur' hp hs
    cases j <;> simp [unmarshalInto] at hs
    · rw [pruned_null hp]; simp [unmarshalInto]
    · obtain ⟨kvs', rfl, hp'⟩ := pruned_obj hp
      simp only [unmarshalInto, Option.isSome_map']
      refine foldlM_mono _ ?_ _ _ _ _ hp' (by simpa using hs)
      intro kv kv' s s' _ hx h
      simp only [Option.isSome_map'] at h ⊢
      exact ih _ _ _ _ hx h
  | hptr t ih =>
    intro j j' cur cur' hp hs
    by_cases hj : j = .null
    · subst hj
      rw [pruned_null hp]; simp [unmarshalInto]
    · have hj' : j' ≠ .null := by
        intro h
        subst h
        cases j <;> simp_all [Json.pruned]
      rw [unmarshalInto_ptr t _ _ hj, Option.isSome_map'] at hs
      rw [unmarshalInto_ptr t _ _ hj', Option.isSome_map']
      exact ih _ _ _ _ hp hs
  | hstruct fs ih =>
    intro j j' cur cur' hp hs
    cases j with
    | null => rw [pruned_null hp]; simp [unmarshalInto]
    | obj kvs =>
      obtain ⟨kvs', rfl, hp'⟩ := pruned_obj hp
      rw [unmarshalInto_struct_obj, Option.isSome_map'] at hs ⊢
      refine foldlM_mono _ ?_ _ _ _ _ hp' hs
      intro kv kv' s s' hk hx h
      simp only [storeMember, hk] at h ⊢
      cases hf : findField fs kv.1 with
      | none => simp
      | some i =>
        simp only [hf] at h ⊢
        exact unmarshalFields_mono fs 0 (ih 0) i _ _ _ _ hx h
    | _ => simp [unmarshalInto] at hs

/-! ## Fields that an object does not mention -/

theorem mem_typeFields {fs : List StructField} {il : Nat × Leaf} (h : il ∈ typeFields fs) :
    (flatten 0 fs)[il.1]? = some il.2 := by
  simp only [typeFields, List.mem_filter] at h
  exact List.mem_enum_iff_getElem?.1 h.1

/-- The field a key resolves to has that key, up to case folding. -/
theorem findField_some {fs : List StructField} {k : String} {i : Nat}
    (h : findField fs k = some i) :
    ∃ l, (flatten 0 fs)[i]? = some l ∧ foldName l.key = foldName k := by
  simp only [findField] at h
  split at h
  · rename_i il hil
    cases h
    refine ⟨il.2, mem_typeFields (List.mem_of_find?_eq_some hil), ?_⟩
    have := List.find?_some hil
    simp only [beq_iff_eq] at this
    rw [this]
  · simp only [Option.map_eq_some'] at h
    obtain ⟨il, hil, rfl⟩ := h
    refine ⟨il.2, mem_typeFields (List.mem_of_find?_eq_some hil), ?_⟩
    have := List.find?_some hil
    simpa using this

/-- Decoding an object into a struct changes only the fields its members
resolve to. -/
theorem fold_untouched (fs : List StructField) : ∀ (kvs : List (String × Json))
    (cur out : List GoVal), shaped fs cur = true →
    kvs.foldlM (storeMember fs) cur = some out →
    shaped fs out = true ∧
      ∀ i, (∀ kv ∈ kvs, findField fs kv.1 ≠ some i) →
        (flatVals fs out)[i]? = (flatVals fs cur)[i]? := by
  intro kvs
  induction kvs with
  | nil =>
    intro cur out hsh h
    simp only [List.foldlM_nil, Option.pure_def, Option.some.injEq] at h
    subst h
    exact ⟨hsh, fun _ _ => rfl⟩
  | cons kv kvs ih =>
    intro cur out hsh h
    simp only [List.foldlM_cons, Option.bind_eq_bind] at h
    cases hm : storeMember fs cur kv with
    | none => simp [hm] at h
    | some mid =>
      simp only [hm, Option.some_bind] at h
      have hmid : shaped fs mid = true ∧
          ∀ i, findField fs kv.1 ≠ some i → (flatVals fs mid)[i]? = (flatVals fs cur)[i]? := by
        simp only [storeMember] at hm
        cases hf : findField fs kv.1 with
        | none =>
          simp only [hf, Option.some.injEq] at hm
          subst hm
          exact ⟨hsh, fun _ _ => rfl⟩
        | some i' =>
          simp only [hf] at hm
          obtain ⟨l, hl, _⟩ := findField_some hf
          have hlt : i' < (flatVals fs cur).length := by
            rw [flatVals_length fs 0]
            by_contra hc
            rw [List.getElem?_eq_none (by omega)] at hl
            cases hl
          obtain ⟨g, hg1, hg2⟩ := unmarshalFields_eq fs 0 i' cur kv.2 l _ hl
            (List.getElem?_eq_getElem hlt) hsh
          rw [hg1] at hm
          simp only [Option.map_eq_some'] at hm
          obtain ⟨w, _, rfl⟩ := hm
          refine ⟨(hg2 w).1, fun i hi => ?_⟩
          rw [(hg2 w).2, List.getElem?_set_ne]
          intro he
          exact hi (he ▸ rfl)
      obtain ⟨h1, h2⟩ := ih mid out hmid.1 h
      refine ⟨h1, fun i hi => ?_⟩
      rw [h2 i (fun kv' hkv' => hi kv' (List.mem_cons_of_mem _ hkv')),
        hmid.2 i (hi kv (List.mem_cons_self _ _))]

/-- A field for which the object has no member, under any spelling of its key,
holds its zero value after decoding. -/
theorem unmarshal_absent (fs : List StructField) (kvs : List (String × Json)) (v : GoVal)
    (h : unmarshal (.struct fs) (.obj kvs) = some v) (i : Nat) (l : Leaf)
    (hl : (flatten 0 fs)[i]? = some l)
    (hk : ∀ kv ∈ kvs, foldName kv.1 ≠ foldName l.key) :
    (flatVals fs v.fields)[i]? = some (zero l.ty) := by
  simp only [unmarshal, unmarshalInto_struct_obj, zero, GoVal.fields, Option.map_eq_some'] at h
  obtain ⟨out, hout, rfl⟩ := h
  obtain ⟨_, h2⟩ := fold_untouched fs kvs _ out (flatVals_zero fs 0).2 hout
  simp only [GoVal.fields]
  rw [h2 i, (flatVals_zero fs 0).1, List.getElem?_map, hl]
  · rfl
  · intro kv hkv hf
    obtain ⟨l', hl', hfold⟩ := findField_some hf
    rw [hl] at hl'
    cases hl'
    exact hk kv hkv hfold.symm

/-- Decoding the empty object gives the zero value. -/
theorem unmarshal_empty (fs : List StructField) :
    unmarshal (.struct fs) (.obj []) = some (zero (.struct fs)) := by
  simp [unmarshal, unmarshalInto_struct_obj, zero, GoVal.fields]

/-! ## Decoding an object with one member -/

/-- Decoding an object with a single member, under the key of a candidate. -/
theorem unmarshal_single (fs : List StructField) (hs : supportedFields fs = true)
    (hk : keysDistinct (flatten 0 fs) = true) (i : Nat) (l : Leaf)
    (hl : (flatten 0 fs)[i]? = some l) (j : Json) (w : GoVal)
    (hw : unmarshal l.ty j = some w) (out : List GoVal) (hsh : shaped fs out = true)
    (hflat : flatVals fs out = ((flatten 0 fs).map fun l => zero l.ty).set i w) :
    unmarshal (.struct fs) (.obj [(l.key, j)]) = some (.struct out) := by
  have hz := flatVals_zero fs 0
  have hlt : i < (flatVals fs (zeroFields fs)).length := by
    rw [flatVals_length fs 0]
    by_contra hc
    rw [List.getElem?_eq_none (by omega)] at hl
    cases hl
  have hc : (flatVals fs (zeroFields fs))[i]? = some (zero l.ty) := by
    rw [hz.1, List.getElem?_map, hl]; rfl
  obtain ⟨g, hg1, hg2⟩ := unmarshalFields_eq fs 0 i (zeroFields fs) j l _ hl hc hz.2
  have hgw : g w = out :=
    flatVals_inj fs hs _ _ (hg2 w).1 hsh (by rw [(hg2 w).2, hz.1, hflat])
  simp only [unmarshal] at hw
  simp only [unmarshal, unmarshalInto_struct_obj, zero, GoVal.fields, List.foldlM_cons,
    List.foldlM_nil, storeMember, findField_key hk hl, hg1, hw, Option.map_some',
    Option.bind_eq_bind, Option.some_bind, Option.pure_def, hgw]

/-- Decoding an object with a single member into a struct without embedded
fields sets the declared field at the position of the candidate. -/
theorem unmarshal_single_plain (fs : List StructField) (hp : plain fs = true)
    (hs : supportedFields fs = true) (hk : keysDistinct (flatten 0 fs) = true)
    (i : Nat) (l : Leaf) (hl : (flatten 0 fs)[i]? = some l) (j : Json) (w : GoVal)
    (hw : unmarshal l.ty j = some w) :
    unmarshal (.struct fs) (.obj [(l.key, j)]) = some (.struct ((zeroFields fs).set i w)) := by
  have hlen : ((zeroFields fs).set i w).length = fs.length := by
    simp [zeroFields_length]
  have h1 := flatVals_plain fs _ hp hlen
  have h2 := flatVals_plain fs _ hp (zeroFields_length fs)
  refine unmarshal_single fs hs hk i l hl j w hw _ h1.2 ?_
  rw [h1.1, ← (flatVals_zero fs 0).1, h2.1]

/-! ## Maps -/

theorem mapLookup_insert_self (k : String) (v : GoVal) : ∀ m : List (String × GoVal),
    mapLookup k (mapInsert k v m) = some v
  | [] => by simp [mapInsert, mapLookup]
  | (k2, v2) :: r => by
    simp only [mapInsert]
    split_ifs with h1 h2
    · simp [mapLookup]
    · simp [mapLookup]
    · simp [mapLookup, h1, mapLookup_insert_self k v r]

theorem mapLookup_insert_ne (k k' : String) (v : GoVal) (h : k' ≠ k) :
    ∀ m : List (String × GoVal), mapLookup k' (mapInsert k v m) = mapLookup k' m
  | [] => by simp [mapInsert, mapLookup, h]
  | (k2, v2) :: r => by
    simp only [mapInsert]
    split_ifs with h1 h2
    · subst h1
      simp [mapLookup, h]
    · simp [mapLookup, h]
    · simp only [mapLookup, mapLookup_insert_ne k k' v h r]

/-- C3 (enumerated wire values).  The constants of each enumeration have
exactly the listed string values, `SingletonTask` being `SingletonTaskTask`,
and are pairwise different. -/
theorem enum_values :
    workloadTypes =
        ["Server", "SingletonServer", "Worker", "SingletonWorker", "Task", "SingletonTaskTask"] ∧
      SingletonTask = "SingletonTaskTask" ∧
      pullPolicies = ["Always", "Never", "IfNotPresent"] ∧
      simpleLBs = ["ROUND_ROBIN", "LEAST_CONN", "RANDOM", "PASSTHROUGH"] ∧
      workloadTypes.Nodup ∧ pullPolicies.Nodup ∧ simpleLBs.Nodup := by
  decide

/-- C2 (optional-field omission), evaluated at the unset `ComponentTraitsForOpt`:
the field `WhiteList` is tagged `omitempty`, and the encoding still has the
member `whiteList`, with an empty object, because a struct value is never
empty; the unset slice `Eject` and the unset pointer `SecurityContext` of a
container are omitted. -/
theorem whiteList_unset_is_written :
    role (.mk "WhiteList" WhiteList "json:\"whiteList,omitempty\"" false) =
        .leaf "whiteList" true true false ∧
      (marshal ComponentTraitsForOpt (zero ComponentTraitsForOpt)).get "whiteList" =
        some (.obj []) ∧
      (marshal ComponentTraitsForOpt (zero ComponentTraitsForOpt)).get "eject" = none ∧
      (marshal ComponentContainer (zero ComponentContainer)).get "securityContext" = none := by
  decide!

/-- C9 (tag-declared key names), evaluated on the fields whose tags are not of
the form `key:"value"`: the tag of `CustomMetric.Enable` has a space after the
colon and the tag of `HttpRetry.PerTryTimeout` has no quotes, so the lookup of
`json` finds nothing and the fields are written under their Go names `Enable`
and `PerTryTimeout`; the embedded `Handler` of `HealthProbe`, whose tag is
malformed as well, is inlined as every untagged embedded struct is. -/
theorem malformed_tags :
    tagGet "json: \"enable\"" "json" = "" ∧
      tagGet "json:pertrytimeout" "json" = "" ∧
      jsonKeys CustomMetric = ["Enable", "uri"] ∧
      jsonKeys HttpRetry = ["attempts", "PerTryTimeout"] ∧
      marshal CustomMetric (.struct [.bool true, .str ""]) = .obj [("Enable", .bool true)] ∧
      marshal HttpRetry (.struct [.int 3, .str "2s"]) =
        .obj [("attempts", .num 3), ("PerTryTimeout", .str "2s")] ∧
      jsonKeys HealthProbe = ["exec", "httpGet", "tcpSocket", "initialDelaySeconds",
        "timeoutSeconds", "periodSeconds", "successThreshold", "failureThreshold"] := by
  decide!

theorem select_nil (t : GoType) (v : GoVal) : select t v [] = some v := by
  cases t <;> cases v <;> rfl

/-- Selecting a declared field of a struct value. -/
theorem select_field (fs : List StructField) (vs : List GoVal) (n : String) (i : Nat)
    (f : StructField) (p : List Step) (hi : fieldIndex fs n = some i) (hf : fs[i]? = some f) :
    select (.struct fs) (.struct vs) (.name n :: p) =
      (vs[i]?).bind fun w => select f.goType w p := by
  simp only [select, hi, hf]
  cases vs[i]? <;> rfl

theorem hasType_struct {fs : List StructField} {v : GoVal}
    (h : hasType (.struct fs) v = true) :
    ∃ vs, v = .struct vs ∧ hasTypeFields fs vs = true ∧ vs.length = fs.length := by
  cases v <;> simp [hasType] at h
  exact ⟨_, rfl, h, hasTypeFields_length _ _ h⟩

theorem select_status (m : GoVal) (p : List Step) :
    select ApplicationStatus (.struct [m]) (.name "ComponentResource" :: p) =
      select (.map ComponentResources) m p := by
  have h := select_field ApplicationStatus.fields [m] "ComponentResource" 0
    (.mk "ComponentResource" (.map ComponentResources)
      "json:\"componentResource,omitempty\"" false) p (by decide) rfl
  exact h

theorem select_map_name (t : GoType) (m : List (String × GoVal)) (k : String) :
    select (.map t) (.map m) [.name k] = mapLookup k m := by
  simp only [select]
  cases mapLookup k m <;> simp [select_nil]

/-- C6 as amended (status map independence).  For every `ApplicationStatus`
whose `ComponentResource` map has been allocated, every two different
component identifiers `k1` and `k2` and every value `v`, the assignment
`ComponentResource[k1] = v` succeeds, after it the lookup of `k1` gives `v`,
and the lookup of `k2` gives what it gave before. -/
theorem status_map_independent (st : GoVal) (k1 k2 : String) (v : GoVal)
    (hst : hasType ApplicationStatus st = true)
    (halloc : select ApplicationStatus st [.name "ComponentResource"] ≠ some .nil)
    (hk : k1 ≠ k2) :
    ∃ st2, statusAssign st k1 v = some st2 ∧ statusIndex st2 k1 = some v ∧
      statusIndex st2 k2 = statusIndex st k2 := by
  have hst2 : hasType (.struct ApplicationStatus.fields) st = true := hst
  obtain ⟨vs, rfl, hvs, hlen⟩ := hasType_struct hst2
  have hlen1 : vs.length = 1 := hlen
  obtain ⟨m, rfl⟩ : ∃ m, vs = [m] := by
    match vs, hlen1 with
    | [m], _ => exact ⟨m, rfl⟩
  · rw [select_status, select_nil] at halloc
    have hm : hasType (.map ComponentResources) m = true := by
      have : hasTypeFields ApplicationStatus.fields [m] = true := hvs
      simpa [ApplicationStatus, GoType.fields, hasTypeFields, hasTypeField] using this
    cases m with
    | nil => exact absurd rfl halloc
    | map es =>
      refine ⟨.struct [.map (mapInsert k1 v es)], ?_, ?_, ?_⟩
      · simp only [statusAssign, select_status, select_nil, mapAssign, Option.map_some']
        rfl
      · simp only [statusIndex, select_status, select_map_name, mapLookup_insert_self]
      · simp only [statusIndex, select_status, select_map_name]
        exact mapLookup_insert_ne k1 k2 v (fun e => hk e.symm) es
    | _ => simp [hasType] at hm

/-- C6 as amended, at an allocated empty map. -/
theorem status_map_independent_example :
    ∃ st2, statusAssign (.struct [.map []]) "web" (zero ComponentResources) = some st2 ∧
      statusIndex st2 "web" = some (zero ComponentResources) ∧
      statusIndex st2 "db" = statusIndex (.struct [.map []]) "db" :=
  status_map_independent (.struct [.map []]) "web" "db" (zero ComponentResources)
    (by decide!) (by decide!) (by decide)

/-- C6 as stated fails on the zero `ApplicationStatus`, whose map is nil: the
assignment panics, so no status results in which the lookup gives the value. -/
theorem status_assign_nil_map :
    ¬ ∃ st2, statusAssign (zero ApplicationStatus) "web" (zero ComponentResources) = some st2 ∧
      statusIndex st2 "web" = some (zero ComponentResources) := by
  have h : statusAssign (zero ApplicationStatus) "web" (zero ComponentResources) = none := by
    decide!
  simp [h]

/-! ## Paths through an encoding -/

/-- C8 (defaulting on absence).  Decoding the empty object gives the zero
`Application`; deleting members, at any depth, from a JSON value that decodes
into an `Application` gives a JSON value that decodes as well; and after
decoding an object into any struct type of the file, every field for which the
object has no member, under any spelling of the key, holds the zero value of
its type. -/
theorem absent_defaults (x : External) :
    unmarshal (Application x) (.obj []) = some (zero (Application x)) ∧
      (∀ j j2, Json.pruned j2 j = true → (unmarshal (Application x) j).isSome = true →
        (unmarshal (Application x) j2).isSome = true) ∧
      (∀ T ∈ declaredStructs x, ∀ kvs v, unmarshal T.2 (.obj kvs) = some v →
        ∀ (i : Nat) (l : Leaf), (flatten 0 T.2.fields)[i]? = some l →
          (∀ kv ∈ kvs, foldName kv.1 ≠ foldName l.key) →
          (flatVals T.2.fields v.fields)[i]? = some (zero l.ty)) := by
  refine ⟨unmarshal_empty (Application x).fields, ?_, ?_⟩
  · intro j j2 hp h
    exact tolerant (Application x) j j2 _ _ hp h
  · intro T _ kvs v h i l hl hk
    cases hT : T.2 with
    | struct fs =>
      rw [hT] at h hl
      simp only [hT, GoType.fields] at hl ⊢
      exact unmarshal_absent fs kvs v h i l hl hk
    | _ => simp [hT, GoType.fields, flatten] at hl

theorem nodup_of_folded {ls : List Leaf}
    (h : (ls.map fun l => foldName l.key).Nodup) : keysDistinct ls = true := by
  rw [keysDistinct_iff]
  have : (ls.map fun l => foldName l.key) = (ls.map fun l => l.key).map foldName := by
    simp [List.map_map, Function.comp_def]
  rw [this] at h
  exact List.Nodup.of_map _ h

/-- What pairwise different folded keys give for a struct type: no candidate
is dropped by `typeFields`, and no key matches two candidates. -/
theorem keys_ok (t : GoType) (h : (foldedKeys t).Nodup) :
    (foldedKeys t).Nodup ∧
      (typeFields t.fields).length = (flatten 0 t.fields).length ∧
      ∀ (k : String) (i j : Nat) (a b : Leaf), (flatten 0 t.fields)[i]? = some a →
        (flatten 0 t.fields)[j]? = some b → foldName a.key = foldName k →
        foldName b.key = foldName k → i = j := by
  refine ⟨h, ?_, ?_⟩
  · rw [typeFields_eq (nodup_of_folded h)]
    simp
  · intro k i j a b ha hb hak hbk
    have hi : i < (foldedKeys t).length := by
      simp only [foldedKeys, List.length_map]
      by_contra hc
      rw [List.getElem?_eq_none (by omega)] at ha
      cases ha
    have hj : j < (foldedKeys t).length := by
      simp only [foldedKeys, List.length_map]
      by_contra hc
      rw [List.getElem?_eq_none (by omega)] at hb
      cases hb
    have h1 : (foldedKeys t)[i]? = some (foldName k) := by
      simp [foldedKeys, List.getElem?_map, ha, hak]
    have h2 : (foldedKeys t)[j]? = some (foldName k) := by
      simp [foldedKeys, List.getElem?_map, hb, hbk]
    rw [List.getElem?_eq_getElem hi] at h1
    rw [List.getElem?_eq_getElem hj] at h2
    exact (List.Nodup.getElem_inj_iff h).1 (Option.some.inj (h1.trans h2.symm))

theorem foldedKeys_application (x : External) :
    foldedKeys (Application x) = externalKeys x ++ ["METADATA", "SPEC", "STATUS"] := by
  have h3 : flattenField 0 (.mk "ObjectMeta" x.ObjectMeta "json:\"metadata,omitempty\"" true) =
      [⟨"metadata", true, x.ObjectMeta, 0, true⟩] := rfl
  have h4 : flattenField 0 (.mk "Spec" ApplicationSpec "json:\"spec,omitempty\"" false) =
      [⟨"spec", true, ApplicationSpec, 0, true⟩] := rfl
  have h5 : flattenField 0 (.mk "Status" ApplicationStatus "json:\"status,omitempty\"" false) =
      [⟨"status", true, ApplicationStatus, 0, true⟩] := rfl
  have hm : foldName "metadata" = "METADATA" := by decide
  have hs : foldName "spec" = "SPEC" := by decide
  have ht : foldName "status" = "STATUS" := by decide
  simp only [foldedKeys, externalKeys, Application, GoType.fields, List.take, flatten_cons, h3,
    h4, h5, flatten, List.map_append, List.map_cons, List.map_nil, hm, hs, ht, List.append_nil,
    List.append_assoc, List.singleton_append]

set_option maxHeartbeats 1000000 in
/-- C10 (no key collisions).  In every struct declared in the file the keys of
the candidate fields, those of the inlined `Handler` of `HealthProbe` included,
are pairwise different also after case folding; hence no field is dropped by
`typeFields`, and no JSON key matches two fields.  For `Application` this takes
that the keys of the embedded external types differ from each other and from
`metadata`, `spec` and `status`. -/
theorem no_key_collisions (x : External) (hx : (externalKeys x).Nodup)
    (hd : ∀ k ∈ externalKeys x, k ∉ ["METADATA", "SPEC", "STATUS"]) :
    ∀ T ∈ declaredStructs x,
      (foldedKeys T.2).Nodup ∧
      (typeFields T.2.fields).length = (flatten 0 T.2.fields).length ∧
      ∀ (k : String) (i j : Nat) (a b : Leaf), (flatten 0 T.2.fields)[i]? = some a →
        (flatten 0 T.2.fields)[j]? = some b → foldName a.key = foldName k →
        foldName b.key = foldName k → i = j := by
  have happ : (foldedKeys (Application x)).Nodup := by
    rw [foldedKeys_application, List.nodup_append]
    exact ⟨hx, by decide, fun k h1 h2 => hd k h1 h2⟩
  intro T hT
  apply keys_ok
  simp only [declaredStructs, List.mem_cons, List.mem_singleton, List.mem_nil_iff,
    or_false] at hT
  rcases hT with h | h | h | h | h | h | h | h | h | h | h | h | h | h | h | h | h | h | h | h |
    h | h | h | h | h | h | h | h | h | h | h | h | h | h | h | h | h | h | h | h | h | h | h |
    h | h
  all_goals subst h
  all_goals first | exact happ | decide

/-- C10, at the sample external types. -/
theorem no_key_collisions_example :
    (foldedKeys (Application sampleExternal)).Nodup ∧ (foldedKeys HealthProbe).Nodup ∧
      (typeFields HealthProbe.fields).length = 8 :=
  ⟨(no_key_collisions sampleExternal (by decide) (by decide) ("Application",
      Application sampleExternal) (by simp [declaredStructs])).1,
    (no_key_collisions sampleExternal (by decide) (by decide) ("HealthProbe", HealthProbe)
      (by simp [declaredStructs])).1,
    (no_key_collisions sampleExternal (by decide) (by decide) ("HealthProbe", HealthProbe)
      (by simp [declaredStructs])).2.1.trans (by decide)⟩

end V3
